/-
Verification of the scraping-orchestrator core of spareparts-api-mvp
(src/scraper/scraper.py, src/database/models.py, src/config.py).

Shallow embedding conventions:
* Python floats are modelled as exact rationals (ℚ); numeric literals such
  as 0.2, 0.9, 5.0 are taken at their decimal value.
* `datetime.utcnow()` is modelled as an explicit `now : Nat` input.
* The metrics dict is a function `String → Option MetricsEntry`.
* The SQLAlchemy session (autocommit=False, autoflush=False, see
  database/db.py) is modelled explicitly: queries see only committed or
  flushed rows plus in-place updates of loaded rows; `db_session.add`
  without flush leaves a row invisible to queries; `db_session.flush()`
  (and the final commit) pushes all pending inserts and enforces the
  uniqueness constraints declared in database/models.py (unique Part
  reference, unique (part_id, supplier_id) index on availability).
  A failed flush leaves the session broken: every later statement raises
  until rollback, exactly as SQLAlchemy behaves.
* Wall-clock sleeps are recorded as events rather than performed.
-/
import Mathlib

namespace SpareParts

/-! ## Metrics store (scraper.py lines 37-108) -/

/-- Arithmetic mean as in `statistics.mean`. -/
def listMean (l : List ℚ) : ℚ := l.sum / l.length

/-- Python slice `l[-n:]`: the last `n` elements (all of them when shorter). -/
def takeLast (n : Nat) (l : List α) : List α := l.drop (l.length - n)

/-- `errors[error_type] = errors.get(error_type, 0) + 1` on an association list. -/
def bumpError : List (String × Nat) → String → List (String × Nat)
  | [], k => [(k, 1)]
  | (k', n) :: rest, k =>
    if k' = k then (k', n + 1) :: rest else (k', n) :: bumpError rest k

/-- One entry of the scraper metrics dict (scraper.py lines 62-72). -/
structure MetricsEntry where
  runs : Nat
  successes : Nat
  failures : Nat
  response_times : List ℚ
  items_counts : List Nat
  last_run : Option Nat
  errors : List (String × Nat)
  optimal_delay : ℚ
  optimal_pages : Nat
deriving DecidableEq, Repr

/-- The fresh entry created when a source is first observed
(scraper.py lines 61-72): `optimal_delay` starts at the configured base
delay (`config.SCRAPER_DELAY`) and `optimal_pages` at 3. -/
def freshEntry (base : ℚ) : MetricsEntry :=
  { runs := 0, successes := 0, failures := 0, response_times := [],
    items_counts := [], last_run := none, errors := [],
    optimal_delay := base, optimal_pages := 3 }

/-- Counter and ring-buffer maintenance of `update_source_metrics`
(scraper.py lines 61-92). -/
def recordOutcome (base : ℚ) (e0 : Option MetricsEntry) (success : Bool)
    (response_time : Option ℚ) (items_count : Option Nat)
    (error : Option String) (now : Nat) : MetricsEntry :=
  let e := e0.getD (freshEntry base)
  let e := { e with runs := e.runs + 1, last_run := some now }
  if success then
    let e := { e with successes := e.successes + 1 }
    let e : MetricsEntry :=
      match response_time with
      | some rt => { e with response_times := takeLast 50 (e.response_times ++ [rt]) }
      | none => e
    match items_count with
    | some c => { e with items_counts := takeLast 20 (e.items_counts ++ [c]) }
    | none => e
  else
    let e := { e with failures := e.failures + 1 }
    match error with
    | some k => { e with errors := bumpError e.errors k }
    | none => e

/-- Delay tuning of `update_source_metrics` (scraper.py lines 94-97):
recompute `optimal_delay` only once 5 latency samples exist. -/
def tuneDelay (base : ℚ) (e : MetricsEntry) : MetricsEntry :=
  if 5 ≤ e.response_times.length then
    { e with optimal_delay := max base (min 5 (listMean e.response_times * (1/5))) }
  else e

/-- Page-budget tuning of `update_source_metrics` (scraper.py lines 99-106). -/
def tunePages (e : MetricsEntry) : MetricsEntry :=
  let sr : ℚ := (e.successes : ℚ) / (max 1 (e.runs : ℚ))
  { e with
    optimal_pages :=
      if 9/10 < sr ∧ 10 < e.runs then 5
      else if 7/10 < sr ∧ 5 < e.runs then 3
      else 2 }

/-- `update_source_metrics` restricted to the entry of the updated source
(scraper.py lines 59-108).  `base` is `config.SCRAPER_DELAY`. -/
def updateEntry (base : ℚ) (e0 : Option MetricsEntry) (success : Bool)
    (response_time : Option ℚ) (items_count : Option Nat)
    (error : Option String) (now : Nat) : MetricsEntry :=
  tunePages (tuneDelay base (recordOutcome base e0 success response_time items_count error now))

/-- The metrics dict, keyed by source name. -/
def Metrics : Type := String → Option MetricsEntry

/-- `update_source_metrics(metrics, source_name, ...)` (scraper.py line 59). -/
def update_source_metrics (base : ℚ) (m : Metrics) (src : String) (success : Bool)
    (response_time : Option ℚ) (items_count : Option Nat)
    (error : Option String) (now : Nat) : Metrics :=
  fun s => if s = src then
    some (updateEntry base (m src) success response_time items_count error now)
  else m s

/-- `get_source_priority(metrics, source_name)` (scraper.py lines 110-129). -/
def get_source_priority (m : Metrics) (src : String) : ℚ :=
  match m src with
  | none => 5
  | some e =>
    let sr : ℚ := (e.successes : ℚ) / (max 1 (e.runs : ℚ))
    let p : ℚ := 10 - sr * 10
    let p := if e.items_counts ≠ [] ∧ 50 < listMean (e.items_counts.map (Nat.cast)) then p - 2 else p
    let p := if e.successes < e.failures then p + 3 else p
    max 1 (min 10 p)

/-! ## Retry engine (scraper.py lines 131-202) -/

/-- What one attempt of `scraper_module.scrape` does, as seen by the engine:
a result list together with the observed elapsed time, an `ImportError`
when the adapter module cannot be loaded, or any other exception. -/
inductive FetchOutcome (α : Type) where
  | ok (items : List α) (rt : ℚ)
  | importError
  | transient (errName : String)

/-- Observable engine events, in program order: a call to
`update_source_metrics`, a call to `save_metrics`, a `time.sleep`. -/
inductive REvent where
  | update (success : Bool)
  | save
  | sleep (t : ℚ)
deriving DecidableEq, Repr

/-- Result of `run_scraper_with_retry` together with its observable trace. -/
structure RunResult (α : Type) where
  result : Option (List α)
  attempts : Nat
  sleeps : List ℚ
  pages : Nat
  finalMetrics : Metrics
  events : List REvent

/-- `metrics.get(source_name, {}).get('optimal_delay', config.SCRAPER_DELAY)`
(scraper.py line 150). -/
def tunedDelay (m : Metrics) (src : String) (base : ℚ) : ℚ :=
  ((m src).map (·.optimal_delay)).getD base

/-- `metrics.get(source_name, {}).get('optimal_pages', 3)` (scraper.py line 151). -/
def tunedPages (m : Metrics) (src : String) : Nat :=
  ((m src).map (·.optimal_pages)).getD 3

/-- The `while retry_count <= max_retries` loop of `run_scraper_with_retry`
(scraper.py lines 157-202).  `attempt` is the current value of
`retry_count` on loop entry; `outcomes i` is what the i-th adapter
invocation does.  The fuel counts the remaining loop iterations; it is
`maxRetries + 1 - attempt` and never reaches 0 before a return, mirroring
the dead fall-through of the Python loop. -/
def runLoop (base : ℚ) (src : String) (outcomes : Nat → FetchOutcome α)
    (backoff : ℚ) (maxRetries : Nat) (now : Nat) (pages : Nat) :
    Nat → Nat → Metrics → RunResult α
  | 0, attempt, m => ⟨none, attempt, [], pages, m, []⟩
  | fuel + 1, attempt, m =>
    match outcomes attempt with
    | .ok items rt =>
      let m' := update_source_metrics base m src true (some rt) (some items.length) none now
      ⟨some items, attempt + 1, [], pages, m', [.update true, .save]⟩
    | .importError =>
      let m' := update_source_metrics base m src false none none (some "ImportError") now
      ⟨none, attempt + 1, [], pages, m', [.update false, .save]⟩
    | .transient e =>
      let m' := update_source_metrics base m src false none none (some e) now
      if attempt + 1 ≤ maxRetries then
        let wait := backoff * 2 ^ attempt
        let r := runLoop base src outcomes backoff maxRetries now pages fuel (attempt + 1) m'
        ⟨r.result, r.attempts, wait :: r.sleeps, pages, r.finalMetrics,
          .update false :: .sleep wait :: r.events⟩
      else
        ⟨none, attempt + 1, [], pages, m', [.update false, .save]⟩

/-- `run_scraper_with_retry(source_config, supplier, metrics, max_retries)`
(scraper.py lines 131-202): the tuned delay and page budget are read from
the metrics once, before the first attempt. -/
def run_scraper_with_retry (base : ℚ) (src : String) (outcomes : Nat → FetchOutcome α)
    (m : Metrics) (maxRetries : Nat) (now : Nat) : RunResult α :=
  runLoop base src outcomes (tunedDelay m src base) maxRetries now
    (tunedPages m src) (maxRetries + 1) 0 m

/-! ## Ingestion pipeline (scraper.py lines 312-413, database/models.py) -/

/-- One raw scraped item (the dicts produced by a source adapter).  A field
is `none` when the key is absent from the dict. -/
structure RawItem where
  reference : Option String
  name : Option String
  description : Option String
  category : Option String
  image_url : Option String
  price : Option ℚ
  in_stock : Option Bool
  url : Option String
deriving DecidableEq, Repr

/-- Python truthiness of `item.get(key)` for a string field:
missing keys and empty strings are falsy. -/
def truthy : Option String → Bool
  | some s => s ≠ ""
  | none => false

/-- The line-336 guard: an item is processed only when both
`item.get('reference')` and `item.get('name')` are truthy. -/
def validItem (it : RawItem) : Bool := truthy it.reference && truthy it.name

/-- `item.get(k, old)`: keep `old` when the key is absent. -/
def upd (new : Option α) (old : Option α) : Option α :=
  match new with
  | some x => some x
  | none => old

/-- A row of the `parts` table (models.py lines 6-17). -/
structure Part where
  id : Nat
  reference : String
  name : String
  description : Option String
  category : Option String
  image_url : Option String
  created_at : Nat
  updated_at : Nat
deriving DecidableEq, Repr

/-- A row of the `availability` table (models.py lines 62-81). -/
structure Availability where
  part_id : Nat
  supplier_id : Nat
  price : Option ℚ
  in_stock : Bool
  url : Option String
  last_checked : Nat
deriving DecidableEq, Repr

/-- The committed database state relevant to ingestion.  `nextPartId` is the
autoincrement counter of the `parts` primary key. -/
structure Store where
  parts : List Part
  avails : List Availability
  nextPartId : Nat
deriving DecidableEq, Repr

/-- The unique composite key `idx_part_supplier` (models.py lines 79-81). -/
def availKey (a : Availability) : Nat × Nat := (a.part_id, a.supplier_id)

def refsOf (l : List Part) : List String := l.map (·.reference)

def keysOf (l : List Availability) : List (Nat × Nat) := l.map availKey

/-- Part creation (scraper.py lines 345-353). -/
def mkPart (id : Nat) (it : RawItem) (now : Nat) : Part :=
  { id := id, reference := it.reference.getD "", name := it.name.getD "",
    description := it.description, category := it.category,
    image_url := it.image_url, created_at := now, updated_at := now }

/-- Part update (scraper.py lines 359-364). -/
def apPart (it : RawItem) (now : Nat) (p : Part) : Part :=
  { p with
    name := it.name.getD p.name
    description := upd it.description p.description
    category := upd it.category p.category
    image_url := upd it.image_url p.image_url
    updated_at := now }

/-- Availability creation (scraper.py lines 374-381). -/
def mkAvail (pid supId : Nat) (it : RawItem) (now : Nat) : Availability :=
  { part_id := pid, supplier_id := supId, price := it.price,
    in_stock := it.in_stock.getD false, url := it.url, last_checked := now }

/-- Availability update (scraper.py lines 384-387). -/
def apAvail (it : RawItem) (now : Nat) (a : Availability) : Availability :=
  { a with
    price := upd it.price a.price
    in_stock := it.in_stock.getD a.in_stock
    url := upd it.url a.url
    last_checked := now }

/-- The transient session state while a batch is being processed.
`vis` is what queries can see (committed rows, flushed inserts, and
in-place updates of loaded rows); `pend` holds availability rows that were
added but not yet flushed (with `autoflush=False` they are invisible to
the lookups of later items); `broken` records that a flush raised an
integrity error, after which every statement raises until rollback. -/
structure LoopSt where
  vis : Store
  pend : List Availability
  broken : Bool
  countNew : Nat
  countUpd : Nat
  countErr : Nat
deriving Repr

def initLoop (st : Store) : LoopSt :=
  { vis := st, pend := [], broken := false,
    countNew := 0, countUpd := 0, countErr := 0 }

/-- Whether pushing the pending inserts (and optionally one new part) to
the database respects the unique constraints of models.py: the unique
`reference` column of `parts` and the unique `(part_id, supplier_id)`
index on `availability`. -/
def flushOk (vis : Store) (pend : List Availability) (newP : Option Part) : Bool :=
  (match newP with
   | some p => decide (p.reference ∉ refsOf vis.parts)
   | none => true)
  && decide (keysOf (vis.avails ++ pend)).Nodup

/-- The availability half of the per-item body (scraper.py lines 368-387):
look up by `(part_id, supplier_id)`; update the row when found, otherwise
add a new pending row.  With `autoflush=False` the lookup sees only `vis`. -/
def stepAvail (now supId pid : Nat) (it : RawItem) (st : LoopSt) : LoopSt :=
  match st.vis.avails.find? (fun a => a.part_id == pid && a.supplier_id == supId) with
  | some _ =>
    let avails1 := st.vis.avails.map
      (fun a => if a.part_id == pid && a.supplier_id == supId then apAvail it now a else a)
    { st with vis := { st.vis with avails := avails1 } }
  | none => { st with pend := st.pend ++ [mkAvail pid supId it now] }

/-- The per-item body of `process_results` (scraper.py lines 333-392).
`ie.1` is the item index; `itemFails ie.1` injects an arbitrary
database-layer exception for that item (caught at line 389 and counted).
Creating a part triggers an explicit `db_session.flush()` (line 356) which
pushes the new part and every pending availability row; an integrity
violation there is caught by the per-item handler and poisons the session. -/
def stepItem (now supId : Nat) (itemFails : Nat → Bool) (st : LoopSt)
    (ie : Nat × RawItem) : LoopSt :=
  if !(validItem ie.2) then st
  else if st.broken || itemFails ie.1 then { st with countErr := st.countErr + 1 }
  else
    match st.vis.parts.find? (fun p => p.reference == ie.2.reference.getD "") with
    | none =>
      if flushOk st.vis st.pend (some (mkPart st.vis.nextPartId ie.2 now)) then
        stepAvail now supId (mkPart st.vis.nextPartId ie.2 now).id ie.2
          { st with
              vis := { parts := st.vis.parts ++ [mkPart st.vis.nextPartId ie.2 now],
                       avails := st.vis.avails ++ st.pend,
                       nextPartId := st.vis.nextPartId + 1 },
              pend := [], countNew := st.countNew + 1 }
      else { st with broken := true, countErr := st.countErr + 1 }
    | some p =>
      stepAvail now supId p.id ie.2
        { st with
            vis := { st.vis with
              parts := st.vis.parts.map
                (fun q => if q.reference == ie.2.reference.getD "" then apPart ie.2 now q else q) },
            countUpd := st.countUpd + 1 }

/-- Result of one `process_results` call. -/
structure IngestResult where
  success : Bool
  processed : Nat
  store : Store
deriving Repr

/-- The final commit (scraper.py lines 394-413).  The commit succeeds when
the session is not poisoned, the remaining pending rows satisfy the unique
constraints, and no external database failure (`commitOk`) occurs; then the
reported flag is `count_errors < len(results) // 2`.  Otherwise everything
is rolled back, `count_errors` absorbs the staged items, and the counts are
reset to zero before the same flag formula is evaluated. -/
def finishCommit (commitOk : Bool) (st0 : Store) (n : Nat) (ls : LoopSt) : IngestResult :=
  if !ls.broken && commitOk && flushOk ls.vis ls.pend none then
    { success := decide (ls.countErr < n / 2),
      processed := ls.countNew + ls.countUpd,
      store := { ls.vis with avails := ls.vis.avails ++ ls.pend } }
  else
    { success := decide (ls.countErr + ls.countNew + ls.countUpd < n / 2),
      processed := 0, store := st0 }

/-- `process_results(results, supplier)` (scraper.py lines 312-413). -/
def process_results (now : Nat) (itemFails : Nat → Bool) (commitOk : Bool)
    (results : List RawItem) (supId : Nat) (st : Store) : IngestResult :=
  if results.isEmpty then ⟨false, 0, st⟩
  else finishCommit commitOk st results.length
    (results.enum.foldl (stepItem now supId itemFails) (initLoop st))

/-- Per-source accounting of `run_scrapers` (scraper.py lines 287-300). -/
structure CoordOutcome where
  succInc : Nat
  failInc : Nat
  itemsInc : Nat
  store : Store
deriving Repr

/-- Python truthiness of the `results` value at line 287: `None` and the
empty list are both falsy. -/
def pyTruthyList : Option (List α) → Bool
  | none => false
  | some l => !l.isEmpty

/-- The body of the per-source loop of `run_scrapers` after the fetch
(scraper.py lines 287-300): ingest and count a success or failure when
`results` is truthy, otherwise count a failure and leave the store alone. -/
def coordStep (now : Nat) (itemFails : Nat → Bool) (commitOk : Bool)
    (fetchResult : Option (List RawItem)) (supId : Nat) (st : Store) : CoordOutcome :=
  if pyTruthyList fetchResult then
    let r := process_results now itemFails commitOk (fetchResult.getD []) supId st
    { succInc := if r.success then 1 else 0,
      failInc := if r.success then 0 else 1,
      itemsInc := r.processed, store := r.store }
  else { succInc := 0, failInc := 1, itemsInc := 0, store := st }

/-- Database well-formedness: the unique constraints of models.py hold and
ids are below the autoincrement counter. -/
def WFStore (st : Store) : Prop :=
  (refsOf st.parts).Nodup ∧ (st.parts.map (·.id)).Nodup ∧
  (∀ p ∈ st.parts, p.id < st.nextPartId) ∧
  (keysOf st.avails).Nodup ∧ (∀ a ∈ st.avails, a.part_id < st.nextPartId)

/-! ## Helper lemmas about the retry engine -/

theorem runLoop_zero (base : ℚ) (src : String) (outcomes : Nat → FetchOutcome α)
    (backoff : ℚ) (maxR now pages attempt : Nat) (m : Metrics) :
    runLoop base src outcomes backoff maxR now pages 0 attempt m =
      ⟨none, attempt, [], pages, m, []⟩ := rfl

theorem runLoop_ok (base : ℚ) (src : String) (outcomes : Nat → FetchOutcome α)
    (backoff : ℚ) (maxR now pages : Nat) (fuel fuel' attempt : Nat) (m : Metrics)
    (items : List α) (rt : ℚ) (hf : fuel = fuel' + 1)
    (h : outcomes attempt = .ok items rt) :
    runLoop base src outcomes backoff maxR now pages fuel attempt m =
      ⟨some items, attempt + 1, [], pages,
        update_source_metrics base m src true (some rt) (some items.length) none now,
        [.update true, .save]⟩ := by
  subst hf
  rw [runLoop.eq_2, h]

theorem runLoop_importError (base : ℚ) (src : String) (outcomes : Nat → FetchOutcome α)
    (backoff : ℚ) (maxR now pages : Nat) (fuel fuel' attempt : Nat) (m : Metrics)
    (hf : fuel = fuel' + 1) (h : outcomes attempt = .importError) :
    runLoop base src outcomes backoff maxR now pages fuel attempt m =
      ⟨none, attempt + 1, [], pages,
        update_source_metrics base m src false none none (some "ImportError") now,
        [.update false, .save]⟩ := by
  subst hf
  rw [runLoop.eq_2, h]

theorem runLoop_transient_retry (base : ℚ) (src : String) (outcomes : Nat → FetchOutcome α)
    (backoff : ℚ) (maxR now pages : Nat) (fuel fuel' attempt : Nat) (m : Metrics)
    (e : String) (hf : fuel = fuel' + 1) (h : outcomes attempt = .transient e)
    (hle : attempt + 1 ≤ maxR) :
    runLoop base src outcomes backoff maxR now pages fuel attempt m =
      ⟨(runLoop base src outcomes backoff maxR now pages fuel' (attempt + 1)
          (update_source_metrics base m src false none none (some e) now)).result,
        (runLoop base src outcomes backoff maxR now pages fuel' (attempt + 1)
          (update_source_metrics base m src false none none (some e) now)).attempts,
        backoff * 2 ^ attempt ::
          (runLoop base src outcomes backoff maxR now pages fuel' (attempt + 1)
            (update_source_metrics base m src false none none (some e) now)).sleeps,
        pages,
        (runLoop base src outcomes backoff maxR now pages fuel' (attempt + 1)
          (update_source_metrics base m src false none none (some e) now)).finalMetrics,
        .update false :: .sleep (backoff * 2 ^ attempt) ::
          (runLoop base src outcomes backoff maxR now pages fuel' (attempt + 1)
            (update_source_metrics base m src false none none (some e) now)).events⟩ := by
  subst hf
  rw [runLoop.eq_2, h]
  simp only [if_pos hle]

theorem runLoop_transient_stop (base : ℚ) (src : String) (outcomes : Nat → FetchOutcome α)
    (backoff : ℚ) (maxR now pages : Nat) (fuel fuel' attempt : Nat) (m : Metrics)
    (e : String) (hf : fuel = fuel' + 1) (h : outcomes attempt = .transient e)
    (hgt : ¬ attempt + 1 ≤ maxR) :
    runLoop base src outcomes backoff maxR now pages fuel attempt m =
      ⟨none, attempt + 1, [], pages,
        update_source_metrics base m src false none none (some e) now,
        [.update false, .save]⟩ := by
  subst hf
  rw [runLoop.eq_2, h]
  simp only [if_neg hgt]

theorem runLoop_pages_eq (base : ℚ) (src : String) (outcomes : Nat → FetchOutcome α)
    (backoff : ℚ) (maxR now pages : Nat) :
    ∀ fuel attempt m,
      (runLoop base src outcomes backoff maxR now pages fuel attempt m).pages = pages := by
  intro fuel
  induction fuel with
  | zero => intro attempt m; rfl
  | succ n ih =>
    intro attempt m
    cases h : outcomes attempt with
    | ok items rt =>
      rw [runLoop_ok base src outcomes backoff maxR now pages (n + 1) n attempt m items rt rfl h]
    | importError =>
      rw [runLoop_importError base src outcomes backoff maxR now pages (n + 1) n attempt m rfl h]
    | transient e =>
      by_cases hle : attempt + 1 ≤ maxR
      · rw [runLoop_transient_retry base src outcomes backoff maxR now pages (n + 1) n attempt m e rfl h hle]
      · rw [runLoop_transient_stop base src outcomes backoff maxR now pages (n + 1) n attempt m e rfl h hle]

/-- A sample tuned metrics entry used by concrete witnesses. -/
def sampleEntry : MetricsEntry :=
  ⟨4, 3, 1, [10, 10, 10, 10], [60, 60], none, [], 9/4, 5⟩

/-- C3.  A source whose adapter raises a retryable (non-ImportError)
exception on every attempt, run with `max_retries = 2`, yields Fatal
(`None`) after exactly 3 attempts (1 initial + 2 retries); the two backoff
sleeps are `delay` and `delay * 2`, where `delay` is the tuned
`optimal_delay` read from the metrics before the first attempt (falling
back to the configured base only when the source has no entry). -/
theorem C3_transient_exhaustion (base : ℚ) (src : String) (α : Type)
    (outcomes : Nat → FetchOutcome α) (m : Metrics) (now : Nat)
    (hall : ∀ i, ∃ e, outcomes i = FetchOutcome.transient e) :
    (run_scraper_with_retry base src outcomes m 2 now).result = none ∧
    (run_scraper_with_retry base src outcomes m 2 now).attempts = 3 ∧
    (run_scraper_with_retry base src outcomes m 2 now).sleeps =
      [tunedDelay m src base, tunedDelay m src base * 2] ∧
    (∀ e, m src = some e → tunedDelay m src base = e.optimal_delay) := by
  obtain ⟨e0, h0⟩ := hall 0
  obtain ⟨e1, h1⟩ := hall 1
  obtain ⟨e2, h2⟩ := hall 2
  have hd : run_scraper_with_retry base src outcomes m 2 now =
      runLoop base src outcomes (tunedDelay m src base) 2 now (tunedPages m src) 3 0 m := rfl
  rw [hd]
  rw [runLoop_transient_retry base src outcomes _ 2 now _ 3 2 0 m e0 rfl h0 (by norm_num)]
  rw [runLoop_transient_retry base src outcomes _ 2 now _ 2 1 (0 + 1) _ e1 rfl h1 (by norm_num)]
  rw [runLoop_transient_stop base src outcomes _ 2 now _ 1 0 (0 + 1 + 1) _ e2 rfl h2 (by norm_num)]
  refine ⟨rfl, rfl, ?_, ?_⟩
  · norm_num
  · intro e he
    simp [tunedDelay, he]

/-- Witness for C3 at a concrete all-transient adapter and a concrete
metrics entry whose tuned delay is 9/4. -/
theorem C3_transient_exhaustion_witness :
    (run_scraper_with_retry 1 "S" (fun _ => FetchOutcome.transient "boom")
      (fun _ => some sampleEntry) 2 0 : RunResult Nat).sleeps = [9/4, 9/4 * 2] := by
  have h := C3_transient_exhaustion 1 "S" Nat (fun _ => FetchOutcome.transient "boom")
    (fun _ => some sampleEntry) 0 (fun _ => ⟨"boom", rfl⟩)
  rw [h.2.2.1, h.2.2.2 sampleEntry rfl]
  rfl

/-- C8.  When the adapter module raises `ImportError`, the engine records
exactly one failure outcome, saves it, and returns Fatal (`None`) after a
single attempt, with no retry and no backoff sleep, whatever the
configured maximum retry count is. -/
theorem C8_import_error_fatal (base : ℚ) (src : String) (α : Type)
    (outcomes : Nat → FetchOutcome α) (m : Metrics) (maxRetries now : Nat)
    (h : outcomes 0 = FetchOutcome.importError) :
    run_scraper_with_retry base src outcomes m maxRetries now =
      ⟨none, 1, [], tunedPages m src,
        update_source_metrics base m src false none none (some "ImportError") now,
        [.update false, .save]⟩ := by
  have hd : run_scraper_with_retry base src outcomes m maxRetries now =
      runLoop base src outcomes (tunedDelay m src base) maxRetries now
        (tunedPages m src) (maxRetries + 1) 0 m := rfl
  rw [hd]
  rw [runLoop_importError base src outcomes _ maxRetries now _ (maxRetries + 1) maxRetries 0 m rfl h]

/-- Witness for C8 at a concrete always-ImportError adapter. -/
theorem C8_import_error_fatal_witness :
    (run_scraper_with_retry 1 "S" (fun _ => FetchOutcome.importError)
      (fun _ => none) 5 0 : RunResult Nat).attempts = 1 ∧
    (run_scraper_with_retry 1 "S" (fun _ => FetchOutcome.importError)
      (fun _ => none) 5 0 : RunResult Nat).sleeps = [] := by
  have h := C8_import_error_fatal 1 "S" Nat (fun _ => FetchOutcome.importError)
    (fun _ => none) 5 0 rfl
  rw [h]
  exact ⟨rfl, rfl⟩

/-- C10.  A source with no metrics entry runs with the literal default page
budget 3 of `metrics.get(name, {}).get('optimal_pages', 3)` (not the
`else 2` of the tuning table) and with the configured base delay; the entry
a first `update_source_metrics` call creates starts at `optimal_pages = 3`
(line 71) before the success-rate tuning rule at lines 99-106 overwrites it
(to 2 after a single run). -/
theorem C10_fresh_source_defaults (base : ℚ) (src : String) (α : Type)
    (outcomes : Nat → FetchOutcome α) (m : Metrics) (maxRetries now : Nat)
    (h : m src = none) (success : Bool) (rt : Option ℚ) (ic : Option Nat)
    (err : Option String) :
    tunedPages m src = 3 ∧ tunedDelay m src base = base ∧
    (run_scraper_with_retry base src outcomes m maxRetries now).pages = 3 ∧
    (freshEntry base).optimal_pages = 3 ∧
    (updateEntry base none success rt ic err now).optimal_pages = 2 := by
  have hp : tunedPages m src = 3 := by simp [tunedPages, h]
  refine ⟨hp, by simp [tunedDelay, h], ?_, rfl, ?_⟩
  · have := runLoop_pages_eq base src outcomes (tunedDelay m src base) maxRetries now
      (tunedPages m src) (maxRetries + 1) 0 m
    rw [show (run_scraper_with_retry base src outcomes m maxRetries now).pages =
      (runLoop base src outcomes (tunedDelay m src base) maxRetries now
        (tunedPages m src) (maxRetries + 1) 0 m).pages from rfl, this, hp]
  · cases success <;> cases rt <;> cases ic <;> cases err <;>
      simp [updateEntry, tunePages, tuneDelay, recordOutcome, freshEntry, takeLast, apply_ite]

/-- Witness for C10 on the empty metrics dict. -/
theorem C10_fresh_source_defaults_witness :
    tunedPages (fun _ => none) "S" = 3 ∧
    (updateEntry 1 none true (some 2) (some 7) none 0).optimal_pages = 2 := by
  have h := C10_fresh_source_defaults 1 "S" Nat (fun _ => FetchOutcome.importError)
    (fun _ => none) 0 0 rfl true (some 2) (some 7) none
  exact ⟨h.1, h.2.2.2.2⟩

/-! ## C4: when are metrics persisted? -/

/-- The property claimed by the spec sentence "every mutation is flushed to
durable storage immediately": in the engine trace, every
`update_source_metrics` call is immediately followed by a `save_metrics`
call, before any sleep or further attempt. -/
def updatesFlushedNow : List REvent → Bool
  | [] => true
  | .update _ :: .save :: rest => updatesFlushedNow rest
  | .update _ :: _ => false
  | _ :: rest => updatesFlushedNow rest

/-- What the code actually does: each metrics update is immediately
followed either by a save (success, ImportError, retries exhausted) or by
the backoff sleep of a retry (transient failure with attempts left). -/
def updateThenSaveOrSleep : List REvent → Bool
  | [] => true
  | .update _ :: .save :: rest => updateThenSaveOrSleep rest
  | .update _ :: .sleep _ :: rest => updateThenSaveOrSleep rest
  | .update _ :: _ => false
  | _ :: rest => updateThenSaveOrSleep rest

theorem runLoop_events_disciplined (base : ℚ) (src : String)
    (outcomes : Nat → FetchOutcome α) (backoff : ℚ) (maxR now pages : Nat) :
    ∀ fuel attempt m, attempt + fuel = maxR + 1 → 1 ≤ fuel →
      updateThenSaveOrSleep
        (runLoop base src outcomes backoff maxR now pages fuel attempt m).events = true ∧
      (runLoop base src outcomes backoff maxR now pages fuel attempt m).events.getLast? =
        some REvent.save := by
  intro fuel
  induction fuel with
  | zero => intro attempt m hsum hpos; exact absurd hpos (by norm_num)
  | succ n ih =>
    intro attempt m hsum hpos
    cases h : outcomes attempt with
    | ok items rt =>
      rw [runLoop_ok base src outcomes backoff maxR now pages (n + 1) n attempt m items rt rfl h]
      exact ⟨rfl, rfl⟩
    | importError =>
      rw [runLoop_importError base src outcomes backoff maxR now pages (n + 1) n attempt m rfl h]
      exact ⟨rfl, rfl⟩
    | transient e =>
      by_cases hle : attempt + 1 ≤ maxR
      · rw [runLoop_transient_retry base src outcomes backoff maxR now pages (n + 1) n attempt m e rfl h hle]
        have hsum' : (attempt + 1) + n = maxR + 1 := by omega
        have hpos' : 1 ≤ n := by omega
        obtain ⟨hdisc, hlast⟩ := ih (attempt + 1)
          (update_source_metrics base m src false none none (some e) now) hsum' hpos'
        set evs := (runLoop base src outcomes backoff maxR now pages n (attempt + 1)
          (update_source_metrics base m src false none none (some e) now)).events with hevs
        have hne : evs ≠ [] := by
          intro hnil
          rw [hnil] at hlast
          simp at hlast
        obtain ⟨x, xs, hx⟩ := List.exists_cons_of_ne_nil hne
        constructor
        · show updateThenSaveOrSleep
            (REvent.update false :: REvent.sleep (backoff * 2 ^ attempt) :: evs) = true
          rw [show updateThenSaveOrSleep
              (REvent.update false :: REvent.sleep (backoff * 2 ^ attempt) :: evs) =
            updateThenSaveOrSleep evs from rfl]
          exact hdisc
        · show (REvent.update false :: REvent.sleep (backoff * 2 ^ attempt) :: evs).getLast? =
            some REvent.save
          rw [hx] at hlast ⊢
          rw [List.getLast?_cons_cons, List.getLast?_cons_cons]
          exact hlast
      · rw [runLoop_transient_stop base src outcomes backoff maxR now pages (n + 1) n attempt m e rfl h hle]
        exact ⟨rfl, rfl⟩

/-- C4 counterexample to the claim as stated: with one transient failure
followed by a successful retry, the trace is
`[update, sleep, update, save]` — the failure update is *not* followed by a
save before the backoff sleep, so a recorded outcome does live only in
memory across a blocking point. -/
theorem C4_immediate_flush_cex :
    updatesFlushedNow
      ((run_scraper_with_retry 1 "S"
        (fun i => if i = 0 then FetchOutcome.transient "E" else FetchOutcome.ok ([] : List Nat) 1)
        (fun _ => none) 1 0).events) = false := by
  rfl

/-- C4 as amended.  Metrics are saved immediately after a success update,
after an ImportError update, and after the final failure update when
retries are exhausted; an intermediate retryable-failure update is instead
followed by the backoff sleep and reaches storage only at the next save —
and every run's trace does end with a save. -/
theorem C4_save_after_update_amended (base : ℚ) (src : String) (α : Type)
    (outcomes : Nat → FetchOutcome α) (m : Metrics) (maxRetries now : Nat) :
    updateThenSaveOrSleep
      (run_scraper_with_retry base src outcomes m maxRetries now).events = true ∧
    (run_scraper_with_retry base src outcomes m maxRetries now).events.getLast? =
      some REvent.save := by
  exact runLoop_events_disciplined base src outcomes (tunedDelay m src base) maxRetries now
    (tunedPages m src) (maxRetries + 1) 0 m (by omega) (by omega)

/-! ## C6/C7: metrics tuning properties -/

theorem tuneDelay_response_times_eq (base : ℚ) (e : MetricsEntry) :
    (tuneDelay base e).response_times = e.response_times := by
  unfold tuneDelay
  split <;> rfl

theorem tunePages_response_times_eq (e : MetricsEntry) :
    (tunePages e).response_times = e.response_times := rfl

theorem tunePages_optimal_delay_eq (e : MetricsEntry) :
    (tunePages e).optimal_delay = e.optimal_delay := rfl

theorem tuneDelay_optimal_delay_eq (base : ℚ) (e : MetricsEntry) :
    (tuneDelay base e).optimal_delay =
      if 5 ≤ e.response_times.length then
        max base (min 5 (listMean e.response_times * (1/5)))
      else e.optimal_delay := by
  unfold tuneDelay
  split <;> rfl

theorem recordOutcome_response_times_eq (base : ℚ) (e0 : Option MetricsEntry)
    (s : Bool) (rt : Option ℚ) (ic : Option Nat) (err : Option String) (now : Nat) :
    (recordOutcome base e0 s rt ic err now).response_times =
      (match s, rt with
        | true, some t => takeLast 50 ((e0.getD (freshEntry base)).response_times ++ [t])
        | true, none => (e0.getD (freshEntry base)).response_times
        | false, _ => (e0.getD (freshEntry base)).response_times) := by
  cases s <;> cases rt <;> cases ic <;> cases err <;> rfl

theorem recordOutcome_optimal_delay_eq (base : ℚ) (e0 : Option MetricsEntry)
    (s : Bool) (rt : Option ℚ) (ic : Option Nat) (err : Option String) (now : Nat) :
    (recordOutcome base e0 s rt ic err now).optimal_delay =
      (e0.getD (freshEntry base)).optimal_delay := by
  cases s <;> cases rt <;> cases ic <;> cases err <;> rfl

theorem updateEntry_optimal_delay_eq (base : ℚ) (e0 : Option MetricsEntry)
    (s : Bool) (rt : Option ℚ) (ic : Option Nat) (err : Option String) (now : Nat) :
    (updateEntry base e0 s rt ic err now).optimal_delay =
      if 5 ≤ (updateEntry base e0 s rt ic err now).response_times.length then
        max base (min 5 (listMean (updateEntry base e0 s rt ic err now).response_times * (1/5)))
      else (e0.getD (freshEntry base)).optimal_delay := by
  show (tunePages (tuneDelay base (recordOutcome base e0 s rt ic err now))).optimal_delay = _
  rw [tunePages_optimal_delay_eq, tuneDelay_optimal_delay_eq]
  rw [show (updateEntry base e0 s rt ic err now).response_times =
    (recordOutcome base e0 s rt ic err now).response_times by
      show (tunePages (tuneDelay base (recordOutcome base e0 s rt ic err now))).response_times = _
      rw [tunePages_response_times_eq, tuneDelay_response_times_eq]]
  rw [recordOutcome_optimal_delay_eq]

theorem takeLast_length (n : Nat) (l : List α) :
    (takeLast n l).length = min n l.length := by
  simp [takeLast]
  omega

theorem updateEntry_rts_length (base : ℚ) (e0 : Option MetricsEntry)
    (s : Bool) (rt : Option ℚ) (ic : Option Nat) (err : Option String) (now : Nat)
    (h50 : (e0.getD (freshEntry base)).response_times.length ≤ 50) :
    (updateEntry base e0 s rt ic err now).response_times.length ≤ 50 ∧
    ((updateEntry base e0 s rt ic err now).response_times.length < 5 →
      (e0.getD (freshEntry base)).response_times.length < 5) := by
  have hrts : (updateEntry base e0 s rt ic err now).response_times =
      (recordOutcome base e0 s rt ic err now).response_times := by
    show (tunePages (tuneDelay base (recordOutcome base e0 s rt ic err now))).response_times = _
    rw [tunePages_response_times_eq, tuneDelay_response_times_eq]
  rw [hrts, recordOutcome_response_times_eq]
  cases s <;> cases rt <;> simp [takeLast_length] <;> omega

/-- The invariant that makes "stays at the configured base delay" precise:
along any run history the latency buffer holds at most 50 samples and the
delay is still the base delay while fewer than 5 samples exist. -/
def DelayInv (base : ℚ) (e : MetricsEntry) : Prop :=
  e.response_times.length ≤ 50 ∧
  (e.response_times.length < 5 → e.optimal_delay = base)

theorem updateEntry_delayInv (base : ℚ) (e0 : Option MetricsEntry)
    (s : Bool) (rt : Option ℚ) (ic : Option Nat) (err : Option String) (now : Nat)
    (h0 : ∀ e, e0 = some e → DelayInv base e) :
    DelayInv base (updateEntry base e0 s rt ic err now) := by
  have hpre : DelayInv base (e0.getD (freshEntry base)) := by
    cases e0 with
    | none => exact ⟨by simp [freshEntry], fun _ => rfl⟩
    | some e => exact h0 e rfl
  obtain ⟨hlen, hdel⟩ := hpre
  obtain ⟨h1, h2⟩ := updateEntry_rts_length base e0 s rt ic err now hlen
  refine ⟨h1, fun hlt => ?_⟩
  rw [updateEntry_optimal_delay_eq, if_neg (by omega)]
  exact hdel (h2 hlt)

/-- One argument tuple of an `update_source_metrics` call. -/
structure UpdateArgs where
  success : Bool
  response_time : Option ℚ
  items_count : Option Nat
  error : Option String
  now : Nat

/-- The metrics entry of a source after a whole run history, starting from
no entry at all (lazy creation on first observation). -/
def applyUpdates (base : ℚ) (as : List UpdateArgs) : Option MetricsEntry :=
  as.foldl (fun acc a =>
    some (updateEntry base acc a.success a.response_time a.items_count a.error a.now)) none

theorem applyUpdates_delayInv (base : ℚ) (as : List UpdateArgs) :
    ∀ e, applyUpdates base as = some e → DelayInv base e := by
  have main : ∀ (l : List UpdateArgs) (acc : Option MetricsEntry),
      (∀ e, acc = some e → DelayInv base e) →
      ∀ e, l.foldl (fun acc a =>
        some (updateEntry base acc a.success a.response_time a.items_count a.error a.now))
          acc = some e → DelayInv base e := by
    intro l
    induction l with
    | nil =>
      intro acc hacc e he
      exact hacc e (by simpa using he)
    | cons a l ih =>
      intro acc hacc e he
      refine ih _ ?_ e (by simpa using he)
      intro e' he'
      have hu : updateEntry base acc a.success a.response_time a.items_count a.error a.now = e' :=
        by injection he'
      exact hu ▸ updateEntry_delayInv base acc a.success a.response_time a.items_count a.error a.now hacc
  intro e he
  exact main as none (by intro e h; cases h) e he

/-- C7.  After any update that leaves at least 5 latency samples, the
optimal delay equals `max(baseDelay, min(5.0, mean(latencies) * 0.2))`;
hence it is monotonically non-decreasing in the mean latency and bounded
below by the base delay (and by 5.0 above whenever the base delay is at
most 5.0); and along any run history, while fewer than 5 samples exist the
delay is still the configured base delay. -/
theorem C7_optimal_delay_tuning :
    (∀ (base : ℚ) (e0 : Option MetricsEntry) (s : Bool) (rt : Option ℚ)
        (ic : Option Nat) (err : Option String) (now : Nat),
      5 ≤ (updateEntry base e0 s rt ic err now).response_times.length →
      (updateEntry base e0 s rt ic err now).optimal_delay =
        max base (min 5 (listMean (updateEntry base e0 s rt ic err now).response_times * (1/5)))) ∧
    (∀ (base : ℚ) (e0 e0' : Option MetricsEntry) (s s' : Bool) (rt rt' : Option ℚ)
        (ic ic' : Option Nat) (err err' : Option String) (now now' : Nat),
      5 ≤ (updateEntry base e0 s rt ic err now).response_times.length →
      5 ≤ (updateEntry base e0' s' rt' ic' err' now').response_times.length →
      listMean (updateEntry base e0 s rt ic err now).response_times ≤
        listMean (updateEntry base e0' s' rt' ic' err' now').response_times →
      (updateEntry base e0 s rt ic err now).optimal_delay ≤
        (updateEntry base e0' s' rt' ic' err' now').optimal_delay) ∧
    (∀ (base : ℚ) (e0 : Option MetricsEntry) (s : Bool) (rt : Option ℚ)
        (ic : Option Nat) (err : Option String) (now : Nat),
      5 ≤ (updateEntry base e0 s rt ic err now).response_times.length →
      base ≤ (updateEntry base e0 s rt ic err now).optimal_delay ∧
      (base ≤ 5 → (updateEntry base e0 s rt ic err now).optimal_delay ≤ 5)) ∧
    (∀ (base : ℚ) (as : List UpdateArgs) (e : MetricsEntry),
      applyUpdates base as = some e →
      e.response_times.length < 5 → e.optimal_delay = base) := by
  have hform : ∀ (base : ℚ) (e0 : Option MetricsEntry) (s : Bool) (rt : Option ℚ)
      (ic : Option Nat) (err : Option String) (now : Nat),
      5 ≤ (updateEntry base e0 s rt ic err now).response_times.length →
      (updateEntry base e0 s rt ic err now).optimal_delay =
        max base (min 5 (listMean (updateEntry base e0 s rt ic err now).response_times * (1/5))) := by
    intro base e0 s rt ic err now h
    rw [updateEntry_optimal_delay_eq, if_pos h]
  refine ⟨hform, ?_, ?_, ?_⟩
  · intro base e0 e0' s s' rt rt' ic ic' err err' now now' h1 h2 hmean
    rw [hform base e0 s rt ic err now h1, hform base e0' s' rt' ic' err' now' h2]
    exact max_le_max le_rfl (min_le_min le_rfl (by linarith))
  · intro base e0 s rt ic err now h
    rw [hform base e0 s rt ic err now h]
    exact ⟨le_max_left _ _, fun hb => max_le hb (min_le_left _ _)⟩
  · intro base as e he hlt
    exact (applyUpdates_delayInv base as e he).2 hlt

/-- Witness for C7: a fifth latency sample of 10 arriving on top of
`sampleEntry` makes the tuned delay `max 1 (min 5 (10 * (1/5))) = 2`. -/
theorem C7_optimal_delay_tuning_witness :
    (updateEntry 1 (some sampleEntry) true (some 10) (some 3) none 0).optimal_delay =
      max 1 (min 5 (listMean (updateEntry 1 (some sampleEntry) true (some 10) (some 3) none 0).response_times * (1/5))) :=
  C7_optimal_delay_tuning.1 1 (some sampleEntry) true (some 10) (some 3) none 0 (by decide)

/-- C6.  The priority score is 5 for a source with no history; otherwise it
is `10 - successRate*10`, minus 2 when the mean recent yield exceeds 50
items, plus 3 when failures exceed successes, clamped to [1, 10]; and for a
fixed run history (same run count, same yield history, runs split between
successes and failures) it is monotonically non-increasing in the success
rate. -/
theorem C6_priority_rules :
    (∀ (m : Metrics) (src : String), m src = none → get_source_priority m src = 5) ∧
    (∀ (m : Metrics) (src : String) (e : MetricsEntry), m src = some e →
      get_source_priority m src =
        max 1 (min 10 (10 - (e.successes : ℚ) / (max 1 (e.runs : ℚ)) * 10
          - (if e.items_counts ≠ [] ∧ 50 < listMean (e.items_counts.map (Nat.cast)) then 2 else 0)
          + (if e.successes < e.failures then 3 else 0)))) ∧
    (∀ (m : Metrics) (src : String),
      1 ≤ get_source_priority m src ∧ get_source_priority m src ≤ 10) ∧
    (∀ (m1 m2 : Metrics) (src : String) (e1 e2 : MetricsEntry),
      m1 src = some e1 → m2 src = some e2 →
      e1.runs = e2.runs → e1.items_counts = e2.items_counts →
      e1.runs = e1.successes + e1.failures → e2.runs = e2.successes + e2.failures →
      e1.successes ≤ e2.successes →
      get_source_priority m2 src ≤ get_source_priority m1 src) := by
  have hform : ∀ (m : Metrics) (src : String) (e : MetricsEntry), m src = some e →
      get_source_priority m src =
        max 1 (min 10 (10 - (e.successes : ℚ) / (max 1 (e.runs : ℚ)) * 10
          - (if e.items_counts ≠ [] ∧ 50 < listMean (e.items_counts.map (Nat.cast)) then 2 else 0)
          + (if e.successes < e.failures then 3 else 0))) := by
    intro m src e h
    unfold get_source_priority
    rw [h]
    by_cases hb : e.items_counts ≠ [] ∧ 50 < listMean (e.items_counts.map (Nat.cast)) <;>
      by_cases hp : e.successes < e.failures <;>
        simp [hb, hp]
  refine ⟨?_, hform, ?_, ?_⟩
  · intro m src h
    unfold get_source_priority
    rw [h]
  · intro m src
    cases h : m src with
    | none =>
      unfold get_source_priority
      rw [h]
      norm_num
    | some e =>
      rw [hform m src e h]
      exact ⟨le_max_left _ _, max_le (by norm_num) (min_le_left _ _)⟩
  · intro m1 m2 src e1 e2 h1 h2 hr hic hsum1 hsum2 hs
    rw [hform m1 src e1 h1, hform m2 src e2 h2, ← hic, ← hr]
    have hd : (0 : ℚ) < max 1 (e1.runs : ℚ) := lt_of_lt_of_le one_pos (le_max_left _ _)
    have hsq : ((e1.successes : ℚ)) ≤ ((e2.successes : ℚ)) := by exact_mod_cast hs
    have hsr : (e1.successes : ℚ) / (max 1 (e1.runs : ℚ)) ≤
        (e2.successes : ℚ) / (max 1 (e1.runs : ℚ)) :=
      div_le_div_of_nonneg_right hsq hd.le
    have hpen : (if e2.successes < e2.failures then (3:ℚ) else 0) ≤
        (if e1.successes < e1.failures then (3:ℚ) else 0) := by
      by_cases hp2 : e2.successes < e2.failures
      · have hp1 : e1.successes < e1.failures := by omega
        simp [hp1, hp2]
      · rw [if_neg hp2]
        split <;> norm_num
    exact max_le_max le_rfl (min_le_min le_rfl (by linarith))

/-- A metrics entry with the same run history shape as `sampleEntry` but a
lower success count, used by the C6 witness. -/
def lowEntry : MetricsEntry :=
  ⟨4, 1, 3, [10, 10, 10, 10], [60, 60], none, [], 9/4, 5⟩

/-- Witness for C6: the default for an unknown source, and monotonicity
between two concrete histories differing only in the success/failure split. -/
theorem C6_priority_rules_witness :
    get_source_priority (fun _ => none) "X" = 5 ∧
    get_source_priority (fun _ => some sampleEntry) "S" ≤
      get_source_priority (fun _ => some lowEntry) "S" :=
  ⟨C6_priority_rules.1 (fun _ => none) "X" rfl,
   C6_priority_rules.2.2.2 (fun _ => some lowEntry) (fun _ => some sampleEntry) "S"
     lowEntry sampleEntry rfl rfl (by decide) (by decide) (by decide) (by decide) (by decide)⟩

/-! ## C1/C2/C9: ingestion flag, commit failure, empty batches -/

/-- A fully populated valid item. -/
def itemA : RawItem :=
  ⟨some "R1", some "N1", some "D", none, none, some 5, some true, some "u"⟩

/-- A minimal valid item with a different reference. -/
def itemB : RawItem :=
  ⟨some "R2", some "N2", none, none, none, none, none, none⟩

/-- A third valid item. -/
def itemC : RawItem :=
  ⟨some "R3", some "N3", none, none, none, none, none, none⟩

/-- An item with a missing reference, skipped by the line-336 guard. -/
def noRefItem : RawItem :=
  ⟨none, some "X", none, none, none, none, none, none⟩

/-- An empty committed store. -/
def emptyStore : Store := ⟨[], [], 1⟩

/-- No injected per-item database failures. -/
def noFails : Nat → Bool := fun _ => false

/-- The sum of the three per-item counters of the ingestion loop. -/
def countsOf (ls : LoopSt) : Nat := ls.countErr + ls.countNew + ls.countUpd

theorem stepAvail_countErr (now supId pid : Nat) (it : RawItem) (st : LoopSt) :
    (stepAvail now supId pid it st).countErr = st.countErr := by
  unfold stepAvail
  split <;> rfl

theorem stepAvail_countNew (now supId pid : Nat) (it : RawItem) (st : LoopSt) :
    (stepAvail now supId pid it st).countNew = st.countNew := by
  unfold stepAvail
  split <;> rfl

theorem stepAvail_countUpd (now supId pid : Nat) (it : RawItem) (st : LoopSt) :
    (stepAvail now supId pid it st).countUpd = st.countUpd := by
  unfold stepAvail
  split <;> rfl

theorem stepItem_counts_valid (now supId : Nat) (itemFails : Nat → Bool)
    (st : LoopSt) (ie : Nat × RawItem) (hval : validItem ie.2 = true) :
    countsOf (stepItem now supId itemFails st ie) = countsOf st + 1 := by
  unfold stepItem
  rw [hval]
  split
  · rename_i h
    simp at h
  · split
    · simp [countsOf]
      omega
    · split
      · split
        · simp [countsOf, stepAvail_countErr, stepAvail_countNew, stepAvail_countUpd]
          omega
        · simp [countsOf]
          omega
      · simp [countsOf, stepAvail_countErr, stepAvail_countNew, stepAvail_countUpd]
        omega

theorem foldl_counts_valid (now supId : Nat) (itemFails : Nat → Bool)
    (l : List (Nat × RawItem)) :
    ∀ st0 : LoopSt, (∀ p ∈ l, validItem p.2 = true) →
      countsOf (l.foldl (stepItem now supId itemFails) st0) = countsOf st0 + l.length := by
  induction l with
  | nil => intro st0 _; simp
  | cons a l ih =>
    intro st0 hval
    rw [List.foldl_cons]
    rw [ih (stepItem now supId itemFails st0 a) (fun p hp => hval p (List.mem_cons_of_mem a hp))]
    rw [stepItem_counts_valid now supId itemFails st0 a (hval a (List.mem_cons_self a l))]
    simp [List.length_cons]
    omega

/-- C1 counterexample to the claim as stated: a two-item batch whose items
both lack a reference is skipped entirely, so when the final commit fails
the call still returns success `true` (0 errors < 2 // 2 = 1), not `false`
— only `processedCount = 0` and the untouched store match the claim. -/
theorem C1_commit_failure_cex :
    (process_results 0 noFails false [noRefItem, noRefItem] 1 emptyStore).success = true ∧
    (process_results 0 noFails false [noRefItem, noRefItem] 1 emptyStore).processed = 0 ∧
    (process_results 0 noFails false [noRefItem, noRefItem] 1 emptyStore).store = emptyStore := by
  exact ⟨rfl, rfl, rfl⟩

/-- C1 as amended.  When the final commit of a non-empty batch fails, the
call reports zero processed items and leaves the committed store unchanged
(nothing from the batch is visible); the success flag is `false` whenever
every item of the batch carries a truthy reference and name — items skipped
by the line-336 guard do not count as errors, so a batch dominated by
skipped items can still report `true`. -/
theorem C1_commit_failure_amended (now : Nat) (itemFails : Nat → Bool)
    (B : List RawItem) (supId : Nat) (st : Store) (hne : B ≠ [])
    (hval : ∀ b ∈ B, validItem b = true) :
    process_results now itemFails false B supId st =
      ⟨false, 0, st⟩ := by
  unfold process_results
  rw [if_neg (by simpa [List.isEmpty_iff] using hne)]
  unfold finishCommit
  rw [if_neg (by simp)]
  have henum : ∀ p ∈ B.enum, validItem p.2 = true := by
    intro p hp
    apply hval
    have : p.2 ∈ B.enum.map Prod.snd := List.mem_map_of_mem Prod.snd hp
    rwa [List.enum_map_snd] at this
  have hcounts := foldl_counts_valid now supId itemFails B.enum (initLoop st) henum
  have hlen : B.enum.length = B.length := List.enum_length
  have hinit : countsOf (initLoop st) = 0 := rfl
  rw [hinit, hlen] at hcounts
  have hflag : decide ((B.enum.foldl (stepItem now supId itemFails) (initLoop st)).countErr +
      (B.enum.foldl (stepItem now supId itemFails) (initLoop st)).countNew +
      (B.enum.foldl (stepItem now supId itemFails) (initLoop st)).countUpd < B.length / 2) = false := by
    rw [decide_eq_false_iff_not]
    unfold countsOf at hcounts
    have hhalf : B.length / 2 ≤ B.length := Nat.div_le_self _ _
    omega
  rw [hflag]

/-- Witness for C1 as amended, on a concrete two-item all-valid batch. -/
theorem C1_commit_failure_amended_witness :
    process_results 0 noFails false [itemA, itemB] 1 emptyStore =
      ⟨false, 0, emptyStore⟩ :=
  C1_commit_failure_amended 0 noFails [itemA, itemB] 1 emptyStore
    (by simp) (by decide)

/-- C2 evaluated at the failing inputs: a one-item batch with zero per-item
errors and a successful commit is reported as `success = false`
(0 < 1 // 2 = 0 fails), and a three-item batch with exactly one per-item
error and a successful commit is also reported `false` (1 < 3 // 2 = 1
fails) — the claim (and the code's own comment at line 413, "moins de la
moitié") requires both to be successful since 0 < 0.5 and 1 < 1.5. -/
theorem C2_half_threshold_eval :
    (process_results 0 noFails true [itemA] 1 emptyStore).success = false ∧
    (process_results 0 noFails true [itemA] 1 emptyStore).processed = 1 ∧
    (process_results 0 (fun i => i == 2) true [itemA, itemB, itemC] 1 emptyStore).success = false ∧
    (process_results 0 (fun i => i == 2) true [itemA, itemB, itemC] 1 emptyStore).processed = 2 := by
  exact ⟨rfl, rfl, rfl, rfl⟩

/-- C9.  When a fetch succeeds with an empty item list, the Run Coordinator
counts the source as failed and leaves the store untouched (the truthiness
test at line 287 short-circuits ingestion); calling `process_results` on an
empty batch would likewise return `(False, 0)` and leave the store
unchanged; yet the Retry Engine has recorded a success outcome (with item
count 0) in the metrics for that very fetch. -/
theorem C9_empty_fetch_failure (now : Nat) (itemFails : Nat → Bool)
    (commitOk : Bool) (supId : Nat) (st : Store) :
    coordStep now itemFails commitOk (some []) supId st = ⟨0, 1, 0, st⟩ ∧
    process_results now itemFails commitOk [] supId st = ⟨false, 0, st⟩ ∧
    (∀ (base : ℚ) (src : String) (outcomes : Nat → FetchOutcome RawItem)
        (m : Metrics) (maxRetries : Nat) (rt : ℚ),
      outcomes 0 = FetchOutcome.ok [] rt →
      (run_scraper_with_retry base src outcomes m maxRetries now).result = some [] ∧
      (run_scraper_with_retry base src outcomes m maxRetries now).finalMetrics =
        update_source_metrics base m src true (some rt) (some 0) none now) := by
  refine ⟨rfl, rfl, ?_⟩
  intro base src outcomes m maxR rt h
  have hd : run_scraper_with_retry base src outcomes m maxR now =
      runLoop base src outcomes (tunedDelay m src base) maxR now
        (tunedPages m src) (maxR + 1) 0 m := rfl
  rw [hd, runLoop_ok base src outcomes _ maxR now _ (maxR + 1) maxR 0 m [] rt rfl h]
  exact ⟨rfl, rfl⟩

/-- Witness for C9 at a concrete empty-result fetch. -/
theorem C9_empty_fetch_failure_witness :
    (run_scraper_with_retry 1 "S" (fun _ => FetchOutcome.ok ([] : List RawItem) 2)
      (fun _ => none) 3 0).result = some [] :=
  ((C9_empty_fetch_failure 0 noFails true 1 emptyStore).2.2 1 "S"
    (fun _ => FetchOutcome.ok [] 2) (fun _ => none) 3 2 rfl).1

/-! ## C5: idempotence of the ingestion pipeline

The per-item effect on a single row is always "write the new value if the
item carries one, else keep the old"; replaying the same item sequence a
second time therefore fixes every row.  The lemmas below capture this
field-by-field, then row-by-row. -/

attribute [ext] Part Availability Store

/-- The value carried by the last item of `S` that writes through `ψ`. -/
def lastWrite (ψ : RawItem → Option τ) (S : List RawItem) : Option τ :=
  S.foldl (fun o b => match ψ b with | some v => some v | none => o) none

theorem foldl_getD_shift (ψ : RawItem → Option τ) (S : List RawItem) :
    ∀ (o : Option τ) (x : τ),
      S.foldl (fun y b => (ψ b).getD y) (o.getD x) =
        (S.foldl (fun o b => match ψ b with | some v => some v | none => o) o).getD x := by
  induction S with
  | nil => intro o x; rfl
  | cons b S ih =>
    intro o x
    rw [List.foldl_cons, List.foldl_cons]
    have h : (ψ b).getD (o.getD x) =
        (match ψ b with | some v => some v | none => o).getD x := by
      cases ψ b <;> rfl
    rw [h]
    exact ih _ x

theorem foldl_getD_char (ψ : RawItem → Option τ) (S : List RawItem) (x : τ) :
    S.foldl (fun y b => (ψ b).getD y) x = (lastWrite ψ S).getD x := by
  have h := foldl_getD_shift ψ S none x
  simpa [lastWrite] using h

theorem foldl_getD_replay (ψ : RawItem → Option τ) (S : List RawItem) (x : τ) :
    S.foldl (fun y b => (ψ b).getD y) (S.foldl (fun y b => (ψ b).getD y) x) =
      S.foldl (fun y b => (ψ b).getD y) x := by
  rw [foldl_getD_char, foldl_getD_char]
  cases lastWrite ψ S <;> rfl

theorem foldl_upd_shift (φ : RawItem → Option τ) (S : List RawItem) :
    ∀ (o : Option τ) (x : Option τ),
      S.foldl (fun y b => upd (φ b) y) (upd o x) =
        upd (S.foldl (fun o b => match φ b with | some v => some v | none => o) o) x := by
  induction S with
  | nil => intro o x; rfl
  | cons b S ih =>
    intro o x
    rw [List.foldl_cons, List.foldl_cons]
    have h : upd (φ b) (upd o x) =
        upd (match φ b with | some v => some v | none => o) x := by
      cases φ b <;> rfl
    rw [h]
    exact ih _ x

theorem foldl_upd_char (φ : RawItem → Option τ) (S : List RawItem) (x : Option τ) :
    S.foldl (fun y b => upd (φ b) y) x = upd (lastWrite φ S) x := by
  have h := foldl_upd_shift φ S none x
  simpa [lastWrite, upd] using h

theorem foldl_upd_replay (φ : RawItem → Option τ) (S : List RawItem) (x : Option τ) :
    S.foldl (fun y b => upd (φ b) y) (S.foldl (fun y b => upd (φ b) y) x) =
      S.foldl (fun y b => upd (φ b) y) x := by
  rw [foldl_upd_char, foldl_upd_char]
  cases lastWrite φ S <;> rfl

theorem foldl_const_replay (c : τ) (S : List RawItem) (x : τ) :
    S.foldl (fun y (_ : RawItem) => c) (S.foldl (fun y (_ : RawItem) => c) x) =
      S.foldl (fun y (_ : RawItem) => c) x := by
  cases S with
  | nil => rfl
  | cons b S => rfl

/-- Folding the per-item part update over an item sequence. -/
def partFold (now : Nat) (S : List RawItem) (p : Part) : Part :=
  S.foldl (fun q b => apPart b now q) p

theorem partFold_nil (now : Nat) (p : Part) : partFold now [] p = p := rfl

theorem partFold_cons (now : Nat) (b : RawItem) (S : List RawItem) (p : Part) :
    partFold now (b :: S) p = partFold now S (apPart b now p) := rfl

theorem partFold_id (now : Nat) (S : List RawItem) (p : Part) :
    (partFold now S p).id = p.id := by
  induction S generalizing p with
  | nil => rfl
  | cons b S ih => rw [partFold_cons, ih]; rfl

theorem partFold_reference (now : Nat) (S : List RawItem) (p : Part) :
    (partFold now S p).reference = p.reference := by
  induction S generalizing p with
  | nil => rfl
  | cons b S ih => rw [partFold_cons, ih]; rfl

theorem partFold_created_at (now : Nat) (S : List RawItem) (p : Part) :
    (partFold now S p).created_at = p.created_at := by
  induction S generalizing p with
  | nil => rfl
  | cons b S ih => rw [partFold_cons, ih]; rfl

theorem partFold_name (now : Nat) (S : List RawItem) (p : Part) :
    (partFold now S p).name = S.foldl (fun y b => (b.name).getD y) p.name := by
  induction S generalizing p with
  | nil => rfl
  | cons b S ih => rw [partFold_cons, ih, List.foldl_cons]; rfl

theorem partFold_description (now : Nat) (S : List RawItem) (p : Part) :
    (partFold now S p).description =
      S.foldl (fun y b => upd (b.description) y) p.description := by
  induction S generalizing p with
  | nil => rfl
  | cons b S ih => rw [partFold_cons, ih, List.foldl_cons]; rfl

theorem partFold_category (now : Nat) (S : List RawItem) (p : Part) :
    (partFold now S p).category =
      S.foldl (fun y b => upd (b.category) y) p.category := by
  induction S generalizing p with
  | nil => rfl
  | cons b S ih => rw [partFold_cons, ih, List.foldl_cons]; rfl

theorem partFold_image_url (now : Nat) (S : List RawItem) (p : Part) :
    (partFold now S p).image_url =
      S.foldl (fun y b => upd (b.image_url) y) p.image_url := by
  induction S generalizing p with
  | nil => rfl
  | cons b S ih => rw [partFold_cons, ih, List.foldl_cons]; rfl

theorem partFold_updated_at (now : Nat) (S : List RawItem) (p : Part) :
    (partFold now S p).updated_at =
      S.foldl (fun y (_ : RawItem) => now) p.updated_at := by
  induction S generalizing p with
  | nil => rfl
  | cons b S ih => rw [partFold_cons, ih, List.foldl_cons]; rfl

theorem partFold_replay (now : Nat) (S : List RawItem) (p : Part) :
    partFold now S (partFold now S p) = partFold now S p := by
  refine Part.ext ?_ ?_ ?_ ?_ ?_ ?_ ?_ ?_
  · rw [partFold_id, partFold_id]
  · rw [partFold_reference, partFold_reference]
  · rw [partFold_name, partFold_name]
    exact foldl_getD_replay (fun b => b.name) S p.name
  · rw [partFold_description, partFold_description]
    exact foldl_upd_replay (fun b => b.description) S p.description
  · rw [partFold_category, partFold_category]
    exact foldl_upd_replay (fun b => b.category) S p.category
  · rw [partFold_image_url, partFold_image_url]
    exact foldl_upd_replay (fun b => b.image_url) S p.image_url
  · rw [partFold_created_at, partFold_created_at]
  · rw [partFold_updated_at, partFold_updated_at]
    exact foldl_const_replay now S p.updated_at

/-- Folding the per-item availability update over an item sequence. -/
def availFold (now : Nat) (S : List RawItem) (a : Availability) : Availability :=
  S.foldl (fun q b => apAvail b now q) a

theorem availFold_nil (now : Nat) (a : Availability) : availFold now [] a = a := rfl

theorem availFold_cons (now : Nat) (b : RawItem) (S : List RawItem) (a : Availability) :
    availFold now (b :: S) a = availFold now S (apAvail b now a) := rfl

theorem availFold_part_id (now : Nat) (S : List RawItem) (a : Availability) :
    (availFold now S a).part_id = a.part_id := by
  induction S generalizing a with
  | nil => rfl
  | cons b S ih => rw [availFold_cons, ih]; rfl

theorem availFold_supplier_id (now : Nat) (S : List RawItem) (a : Availability) :
    (availFold now S a).supplier_id = a.supplier_id := by
  induction S generalizing a with
  | nil => rfl
  | cons b S ih => rw [availFold_cons, ih]; rfl

theorem availFold_price (now : Nat) (S : List RawItem) (a : Availability) :
    (availFold now S a).price = S.foldl (fun y b => upd (b.price) y) a.price := by
  induction S generalizing a with
  | nil => rfl
  | cons b S ih => rw [availFold_cons, ih, List.foldl_cons]; rfl

theorem availFold_in_stock (now : Nat) (S : List RawItem) (a : Availability) :
    (availFold now S a).in_stock = S.foldl (fun y b => (b.in_stock).getD y) a.in_stock := by
  induction S generalizing a with
  | nil => rfl
  | cons b S ih => rw [availFold_cons, ih, List.foldl_cons]; rfl

theorem availFold_url (now : Nat) (S : List RawItem) (a : Availability) :
    (availFold now S a).url = S.foldl (fun y b => upd (b.url) y) a.url := by
  induction S generalizing a with
  | nil => rfl
  | cons b S ih => rw [availFold_cons, ih, List.foldl_cons]; rfl

theorem availFold_last_checked (now : Nat) (S : List RawItem) (a : Availability) :
    (availFold now S a).last_checked =
      S.foldl (fun y (_ : RawItem) => now) a.last_checked := by
  induction S generalizing a with
  | nil => rfl
  | cons b S ih => rw [availFold_cons, ih, List.foldl_cons]; rfl

theorem availFold_replay (now : Nat) (S : List RawItem) (a : Availability) :
    availFold now S (availFold now S a) = availFold now S a := by
  refine Availability.ext ?_ ?_ ?_ ?_ ?_ ?_
  · rw [availFold_part_id, availFold_part_id]
  · rw [availFold_supplier_id, availFold_supplier_id]
  · rw [availFold_price, availFold_price]
    exact foldl_upd_replay (fun b => b.price) S a.price
  · rw [availFold_in_stock, availFold_in_stock]
    exact foldl_getD_replay (fun b => b.in_stock) S a.in_stock
  · rw [availFold_url, availFold_url]
    exact foldl_upd_replay (fun b => b.url) S a.url
  · rw [availFold_last_checked, availFold_last_checked]
    exact foldl_const_replay now S a.last_checked

/-- A part row as it looks just before its creating item is applied. -/
def blankPart (id : Nat) (r : String) (now : Nat) : Part :=
  ⟨id, r, "", none, none, none, now, 0⟩

theorem mkPart_eq_ap_blank (id : Nat) (b : RawItem) (now : Nat) :
    mkPart id b now = apPart b now (blankPart id (b.reference.getD "") now) := by
  obtain ⟨ref, nm, ds, ct, im, pr, ins, ur⟩ := b
  refine Part.ext ?_ ?_ ?_ ?_ ?_ ?_ ?_ ?_ <;>
    first
      | rfl
      | (cases ds <;> rfl)
      | (cases ct <;> rfl)
      | (cases im <;> rfl)

/-- An availability row as it looks just before its creating item is applied. -/
def blankAvail (pid supId : Nat) : Availability :=
  ⟨pid, supId, none, false, none, 0⟩

theorem mkAvail_eq_ap_blank (pid supId : Nat) (b : RawItem) (now : Nat) :
    mkAvail pid supId b now = apAvail b now (blankAvail pid supId) := by
  obtain ⟨ref, nm, ds, ct, im, pr, ins, ur⟩ := b
  refine Availability.ext ?_ ?_ ?_ ?_ ?_ ?_ <;>
    first
      | rfl
      | (cases pr <;> rfl)
      | (cases ur <;> rfl)

/-- `stepItem` when no external per-item database failure is injected
(the pure semantics of the per-item loop body). -/
def stepNF (now supId : Nat) (st : LoopSt) (b : RawItem) : LoopSt :=
  stepItem now supId (fun _ => false) st (0, b)

theorem stepItem_noFails (now supId : Nat) (st : LoopSt) (ie : Nat × RawItem) :
    stepItem now supId (fun _ => false) st ie = stepNF now supId st ie.2 := rfl

theorem process_results_eq_NF (now supId : Nat) (B : List RawItem) (st : Store) :
    process_results now (fun _ => false) true B supId st =
      if B.isEmpty then ⟨false, 0, st⟩
      else finishCommit true st B.length (B.foldl (stepNF now supId) (initLoop st)) := by
  unfold process_results
  have h : B.enum.foldl (stepItem now supId (fun _ => false)) (initLoop st) =
      B.foldl (stepNF now supId) (initLoop st) := by
    have hfn : stepItem now supId (fun _ => false) =
        fun st ie => stepNF now supId st ie.2 :=
      funext fun st => funext fun ie => rfl
    rw [hfn, ← List.foldl_map, List.enum_map_snd]
  rw [h]

theorem stepNF_invalid (now supId : Nat) (st : LoopSt) (b : RawItem)
    (h : validItem b = false) : stepNF now supId st b = st := by
  unfold stepNF stepItem
  simp [h]

theorem stepNF_broken (now supId : Nat) (st : LoopSt) (b : RawItem)
    (hv : validItem b = true) (hb : st.broken = true) :
    stepNF now supId st b = { st with countErr := st.countErr + 1 } := by
  unfold stepNF stepItem
  simp [hv, hb]

theorem stepNF_found (now supId : Nat) (st : LoopSt) (b : RawItem) (p : Part)
    (hv : validItem b = true) (hb : st.broken = false)
    (hp : st.vis.parts.find? (fun q => q.reference == b.reference.getD "") = some p) :
    stepNF now supId st b =
      stepAvail now supId p.id b
        { st with
            vis := { st.vis with
              parts := st.vis.parts.map
                (fun q => if q.reference == b.reference.getD "" then apPart b now q else q) },
            countUpd := st.countUpd + 1 } := by
  unfold stepNF stepItem
  simp [hv, hb, hp]

theorem stepNF_new_ok (now supId : Nat) (st : LoopSt) (b : RawItem)
    (hv : validItem b = true) (hb : st.broken = false)
    (hp : st.vis.parts.find? (fun q => q.reference == b.reference.getD "") = none)
    (hf : flushOk st.vis st.pend (some (mkPart st.vis.nextPartId b now)) = true) :
    stepNF now supId st b =
      stepAvail now supId st.vis.nextPartId b
        { st with
            vis := { parts := st.vis.parts ++ [mkPart st.vis.nextPartId b now],
                     avails := st.vis.avails ++ st.pend,
                     nextPartId := st.vis.nextPartId + 1 },
            pend := [], countNew := st.countNew + 1 } := by
  unfold stepNF stepItem
  simp [hv, hb, hp, hf]
  rfl

theorem stepNF_new_bad (now supId : Nat) (st : LoopSt) (b : RawItem)
    (hv : validItem b = true) (hb : st.broken = false)
    (hp : st.vis.parts.find? (fun q => q.reference == b.reference.getD "") = none)
    (hf : flushOk st.vis st.pend (some (mkPart st.vis.nextPartId b now)) = false) :
    stepNF now supId st b = { st with broken := true, countErr := st.countErr + 1 } := by
  unfold stepNF stepItem
  simp [hv, hb, hp, hf]

theorem stepAvail_found (now supId pid : Nat) (b : RawItem) (st : LoopSt)
    (a0 : Availability)
    (ha : st.vis.avails.find? (fun a => a.part_id == pid && a.supplier_id == supId) = some a0) :
    stepAvail now supId pid b st =
      { st with
          vis := { st.vis with
            avails := st.vis.avails.map
              (fun a => if a.part_id == pid && a.supplier_id == supId
                then apAvail b now a else a) } } := by
  unfold stepAvail
  rw [ha]

theorem stepAvail_miss (now supId pid : Nat) (b : RawItem) (st : LoopSt)
    (ha : st.vis.avails.find? (fun a => a.part_id == pid && a.supplier_id == supId) = none) :
    stepAvail now supId pid b st =
      { st with pend := st.pend ++ [mkAvail pid supId b now] } := by
  unfold stepAvail
  rw [ha]

/-- The items of a batch that reach the part row with reference `r`:
valid items whose reference is `r`, in order. -/
def selP (r : String) (B : List RawItem) : List RawItem :=
  B.filter (fun b => validItem b && (b.reference.getD "" == r))

/-- The id of the part row an item's availability update is keyed on,
resolved against a given parts table. -/
def resolveId (parts : List Part) (b : RawItem) : Option Nat :=
  (parts.find? (fun p => p.reference == b.reference.getD "")).map (·.id)

/-- The items of a batch that reach the availability row with key `k`
(for the supplier of the call), resolving references through `parts`. -/
def selA (parts : List Part) (supId : Nat) (k : Nat × Nat) (B : List RawItem) : List RawItem :=
  B.filter (fun b => validItem b && (resolveId parts b == some k.1) && (supId == k.2))

theorem selP_nil (r : String) : selP r [] = [] := rfl

theorem selA_nil (parts : List Part) (supId : Nat) (k : Nat × Nat) :
    selA parts supId k [] = [] := rfl

theorem selP_cons_self (b : RawItem) (B : List RawItem) (hv : validItem b = true) :
    selP (b.reference.getD "") (b :: B) = b :: selP (b.reference.getD "") B := by
  unfold selP
  rw [List.filter_cons]
  simp [hv]

theorem selP_cons_invalid (b : RawItem) (B : List RawItem) (r : String)
    (hv : validItem b = false) : selP r (b :: B) = selP r B := by
  unfold selP
  rw [List.filter_cons]
  simp [hv]

theorem selP_cons_ne (b : RawItem) (B : List RawItem) (r : String)
    (hne : b.reference.getD "" ≠ r) : selP r (b :: B) = selP r B := by
  unfold selP
  rw [List.filter_cons]
  simp [hne]

theorem selA_cons_invalid (parts : List Part) (supId : Nat) (k : Nat × Nat)
    (b : RawItem) (B : List RawItem) (hv : validItem b = false) :
    selA parts supId k (b :: B) = selA parts supId k B := by
  unfold selA
  rw [List.filter_cons]
  simp [hv]

theorem selA_cons_hit (parts : List Part) (supId : Nat) (k : Nat × Nat)
    (b : RawItem) (B : List RawItem) (hv : validItem b = true)
    (hres : resolveId parts b = some k.1) (hsup : supId = k.2) :
    selA parts supId k (b :: B) = b :: selA parts supId k B := by
  unfold selA
  rw [List.filter_cons]
  simp [hv, hres, hsup]

theorem selA_cons_miss (parts : List Part) (supId : Nat) (k : Nat × Nat)
    (b : RawItem) (B : List RawItem)
    (h : resolveId parts b ≠ some k.1 ∨ supId ≠ k.2) :
    selA parts supId k (b :: B) = selA parts supId k B := by
  unfold selA
  rw [List.filter_cons]
  rcases h with h | h <;> simp [h]

theorem apPart_id_eq (b : RawItem) (now : Nat) (q : Part) :
    (apPart b now q).id = q.id := rfl

theorem apPart_reference_eq (b : RawItem) (now : Nat) (q : Part) :
    (apPart b now q).reference = q.reference := rfl

theorem availKey_apAvail (b : RawItem) (now : Nat) (a : Availability) :
    availKey (apAvail b now a) = availKey a := rfl

theorem refsOf_map_preserve (parts : List Part) (f : Part → Part)
    (href : ∀ q, (f q).reference = q.reference) :
    refsOf (parts.map f) = refsOf parts := by
  unfold refsOf
  rw [List.map_map]
  exact List.map_congr_left fun q _ => href q

theorem idsOf_map_preserve (parts : List Part) (f : Part → Part)
    (hid : ∀ q, (f q).id = q.id) :
    (parts.map f).map (·.id) = parts.map (·.id) := by
  rw [List.map_map]
  exact List.map_congr_left fun q _ => hid q

theorem keysOf_map_preserve (l : List Availability) (g : Availability → Availability)
    (hkey : ∀ a, availKey (g a) = availKey a) :
    keysOf (l.map g) = keysOf l := by
  unfold keysOf
  rw [List.map_map]
  exact List.map_congr_left fun a _ => hkey a

theorem resolveId_map_preserve (parts : List Part) (f : Part → Part)
    (href : ∀ q, (f q).reference = q.reference) (hid : ∀ q, (f q).id = q.id)
    (b : RawItem) :
    resolveId (parts.map f) b = resolveId parts b := by
  unfold resolveId
  rw [List.find?_map]
  have hpred : ((fun p => p.reference == b.reference.getD "") ∘ f) =
      (fun p => p.reference == b.reference.getD "") := by
    funext q
    simp [Function.comp, href q]
  rw [hpred, Option.map_map]
  have hcomp : ((fun p : Part => p.id) ∘ f) = (fun p : Part => p.id) := by
    funext q
    simp [Function.comp, hid q]
  rw [hcomp]

theorem resolveId_eq_of_forall₂ (w u : List Part)
    (h : List.Forall₂ (fun x y => x.id = y.id ∧ x.reference = y.reference) w u)
    (b : RawItem) :
    resolveId w b = resolveId u b := by
  induction h with
  | nil => rfl
  | @cons x y l₁ l₂ hxy htail ih =>
    unfold resolveId at ih ⊢
    by_cases hx : (x.reference == b.reference.getD "") = true
    · have hy : (y.reference == b.reference.getD "") = true := by
        rw [← hxy.2]
        exact hx
      simp [List.find?_cons, hx, hy, hxy.1]
    · have hy : ¬ (y.reference == b.reference.getD "") = true := by
        rw [← hxy.2]
        exact hx
      simp only [List.find?_cons, hx, hy, if_false, Bool.false_eq_true]
      exact ih

/-- Core of the second-run argument: if every part row and every
availability row of the working store is exactly the fold of the items
still to come over a corresponding row of the target store `u`, every
valid item finds its part and availability rows, and the unique keys are
distinct, then replaying the remaining items turns the working store into
`u` — no insert ever happens, the session stays clean, and the pending
list stays empty. -/
theorem run2_fixpoint (now supId : Nat) (u : Store) :
    ∀ (L : List RawItem) (w : Store) (cN cU cE : Nat),
      List.Forall₂ (fun x y => x.id = y.id ∧ x.reference = y.reference ∧
        partFold now (selP x.reference L) x = y) w.parts u.parts →
      List.Forall₂ (fun x y => availKey x = availKey y ∧
        availFold now (selA u.parts supId (availKey x) L) x = y) w.avails u.avails →
      w.nextPartId = u.nextPartId →
      (∀ b ∈ L, validItem b = true →
        (∃ p ∈ w.parts, p.reference = b.reference.getD "") ∧
        (∀ p : Part, w.parts.find? (fun q => q.reference == b.reference.getD "") = some p →
          ∃ a ∈ w.avails, availKey a = (p.id, supId))) →
      ∃ cU', L.foldl (stepNF now supId) ⟨w, [], false, cN, cU, cE⟩ =
        ⟨u, [], false, cN, cU', cE⟩ := by
  intro L
  induction L with
  | nil =>
    intro w cN cU cE hP hA hnext _
    refine ⟨cU, ?_⟩
    have hparts : w.parts = u.parts := by
      rw [← List.forall₂_eq_eq_eq]
      exact hP.imp fun x y h => h.2.2
    have havails : w.avails = u.avails := by
      rw [← List.forall₂_eq_eq_eq]
      exact hA.imp fun x y h => h.2
    have hw : w = u := by
      refine Store.ext ?_ ?_ ?_ <;> assumption
    rw [List.foldl_nil, hw]
  | cons b L ih =>
    intro w cN cU cE hP hA hnext hpres
    rw [List.foldl_cons]
    by_cases hv : validItem b = true
    case neg =>
      have hv' : validItem b = false := by
        cases h : validItem b
        · rfl
        · exact absurd h hv
      rw [stepNF_invalid now supId _ b hv']
      refine ih w cN cU cE ?_ ?_ hnext ?_
      · exact hP.imp fun x y h =>
          ⟨h.1, h.2.1, by rw [← selP_cons_invalid b L x.reference hv']; exact h.2.2⟩
      · exact hA.imp fun x y h =>
          ⟨h.1, by rw [← selA_cons_invalid u.parts supId (availKey x) b L hv']; exact h.2⟩
      · intro b' hb' hvb'
        exact hpres b' (List.mem_cons_of_mem b hb') hvb'
    case pos =>
      obtain ⟨⟨p₀, hp₀mem, hp₀ref⟩, hav⟩ := hpres b (List.mem_cons_self b L) hv
      have hfindsome : ∃ p, w.parts.find?
          (fun q => q.reference == b.reference.getD "") = some p := by
        rw [← Option.isSome_iff_exists]
        exact List.find?_isSome.mpr ⟨p₀, hp₀mem, by simp [hp₀ref]⟩
      obtain ⟨p, hp⟩ := hfindsome
      have hpref : p.reference = b.reference.getD "" := by
        have := List.find?_some hp
        simpa using this
      obtain ⟨a₀, ha₀mem, ha₀key⟩ := hav p hp
      rw [stepNF_found now supId _ b p hv rfl hp]
      have hafindsome : ∃ a1, w.avails.find?
          (fun a => a.part_id == p.id && a.supplier_id == supId) = some a1 := by
        rw [← Option.isSome_iff_exists]
        refine List.find?_isSome.mpr ⟨a₀, ha₀mem, ?_⟩
        have h1 : a₀.part_id = p.id := congrArg Prod.fst ha₀key
        have h2 : a₀.supplier_id = supId := congrArg Prod.snd ha₀key
        simp [h1, h2]
      obtain ⟨a1, ha1⟩ := hafindsome
      rw [stepAvail_found now supId p.id b _ a1 ha1]
      have hresw : resolveId w.parts b = some p.id := by
        unfold resolveId
        rw [hp]
        rfl
      have hresu : resolveId u.parts b = some p.id := by
        rw [← hresw]
        exact (resolveId_eq_of_forall₂ w.parts u.parts
          (hP.imp fun x y h => ⟨h.1, h.2.1⟩) b).symm
      have hPnew : List.Forall₂ (fun x y => x.id = y.id ∧ x.reference = y.reference ∧
          partFold now (selP x.reference L) x = y)
          (w.parts.map (fun q => if q.reference == b.reference.getD ""
            then apPart b now q else q)) u.parts := by
        rw [List.forall₂_map_left_iff]
        refine hP.imp fun x y h => ?_
        by_cases hx : (x.reference == b.reference.getD "") = true
        · have hxr : x.reference = b.reference.getD "" := by simpa using hx
          rw [if_pos hx]
          refine ⟨h.1, h.2.1, ?_⟩
          have hsel : selP x.reference (b :: L) = b :: selP x.reference L := by
            rw [hxr]
            exact selP_cons_self b L hv
          have h3 := h.2.2
          rw [hsel, partFold_cons] at h3
          rw [apPart_reference_eq]
          exact h3
        · have hxr : b.reference.getD "" ≠ x.reference := by
            intro hcontra
            exact hx (by simp [hcontra])
          rw [if_neg hx]
          refine ⟨h.1, h.2.1, ?_⟩
          have hsel : selP x.reference (b :: L) = selP x.reference L :=
            selP_cons_ne b L x.reference hxr
          have h3 := h.2.2
          rwa [hsel] at h3
      have hAnew : List.Forall₂ (fun x y => availKey x = availKey y ∧
          availFold now (selA u.parts supId (availKey x) L) x = y)
          (w.avails.map (fun a => if a.part_id == p.id && a.supplier_id == supId
            then apAvail b now a else a)) u.avails := by
        rw [List.forall₂_map_left_iff]
        refine hA.imp fun x y h => ?_
        by_cases hx : (x.part_id == p.id && x.supplier_id == supId) = true
        · have hx1 : x.part_id = p.id := by
            have := (Bool.and_eq_true _ _).mp hx
            simpa using this.1
          have hx2 : x.supplier_id = supId := by
            have := (Bool.and_eq_true _ _).mp hx
            simpa using this.2
          rw [if_pos hx]
          refine ⟨h.1, ?_⟩
          have hsel : selA u.parts supId (availKey x) (b :: L) =
              b :: selA u.parts supId (availKey x) L := by
            refine selA_cons_hit u.parts supId (availKey x) b L hv ?_ ?_
            · rw [hresu]
              unfold availKey
              rw [hx1]
            · unfold availKey
              rw [hx2]
          have h2 := h.2
          rw [hsel, availFold_cons] at h2
          rw [availKey_apAvail]
          exact h2
        · rw [if_neg hx]
          refine ⟨h.1, ?_⟩
          have hsel : selA u.parts supId (availKey x) (b :: L) =
              selA u.parts supId (availKey x) L := by
            refine selA_cons_miss u.parts supId (availKey x) b L ?_
            by_cases h1 : x.part_id = p.id
            · right
              intro hcontra
              apply hx
              have h2 : x.supplier_id = supId := by
                unfold availKey at hcontra
                exact hcontra.symm ▸ rfl
              simp [h1, h2]
            · left
              rw [hresu]
              intro hcontra
              apply h1
              unfold availKey at hcontra
              have := Option.some.inj hcontra
              exact this.symm
          have h2 := h.2
          rwa [hsel] at h2
      have hpresnew : ∀ b' ∈ L, validItem b' = true →
          (∃ p' ∈ w.parts.map (fun q => if q.reference == b.reference.getD ""
              then apPart b now q else q), p'.reference = b'.reference.getD "") ∧
          (∀ p' : Part, (w.parts.map (fun q => if q.reference == b.reference.getD ""
              then apPart b now q else q)).find?
              (fun q => q.reference == b'.reference.getD "") = some p' →
            ∃ a' ∈ w.avails.map (fun a => if a.part_id == p.id && a.supplier_id == supId
              then apAvail b now a else a), availKey a' = (p'.id, supId)) := by
        intro b' hb' hvb'
        obtain ⟨⟨q, hqmem, hqref⟩, hav'⟩ := hpres b' (List.mem_cons_of_mem b hb') hvb'
        constructor
        · refine ⟨if (q.reference == b.reference.getD "") = true
              then apPart b now q else q, List.mem_map_of_mem _ hqmem, ?_⟩
          by_cases hq : (q.reference == b.reference.getD "") = true
          · rw [if_pos hq, apPart_reference_eq]
            exact hqref
          · rw [if_neg hq]
            exact hqref
        · intro p' hp'
          rw [List.find?_map] at hp'
          have hpred : ((fun q => q.reference == b'.reference.getD "") ∘
              (fun q => if q.reference == b.reference.getD "" then apPart b now q else q)) =
              (fun q : Part => q.reference == b'.reference.getD "") := by
            funext q
            by_cases hq : (q.reference == b.reference.getD "") = true
            · simp [Function.comp, hq, apPart_reference_eq]
            · simp [Function.comp, hq]
          rw [hpred] at hp'
          obtain ⟨p'', hp'', hp''eq⟩ := Option.map_eq_some'.mp hp'
          obtain ⟨a', ha'mem, ha'key⟩ := hav' p'' hp''
          refine ⟨if (a'.part_id == p.id && a'.supplier_id == supId) = true
              then apAvail b now a' else a', List.mem_map_of_mem _ ha'mem, ?_⟩
          have hid : p'.id = p''.id := by
            rw [← hp''eq]
            by_cases hq : (p''.reference == b.reference.getD "") = true
            · simp [hq, apPart_id_eq]
            · simp [hq]
          by_cases ha' : (a'.part_id == p.id && a'.supplier_id == supId) = true
          · rw [if_pos ha', availKey_apAvail, ha'key, hid]
          · rw [if_neg ha', ha'key, hid]
      obtain ⟨cU', hrest⟩ := ih
        ⟨w.parts.map (fun q => if q.reference == b.reference.getD ""
            then apPart b now q else q),
         w.avails.map (fun a => if a.part_id == p.id && a.supplier_id == supId
            then apAvail b now a else a),
         w.nextPartId⟩ cN (cU + 1) cE hPnew hAnew hnext hpresnew
      exact ⟨cU', hrest⟩

/-- Combined per-item step: part found, availability row found (pure
in-place updates). -/
theorem stepNF_found_avfound (now supId : Nat) (ls : LoopSt) (b : RawItem) (p : Part)
    (hv : validItem b = true) (hb : ls.broken = false)
    (hp : ls.vis.parts.find? (fun q => q.reference == b.reference.getD "") = some p)
    (a1 : Availability)
    (ha : ls.vis.avails.find? (fun a => a.part_id == p.id && a.supplier_id == supId) = some a1) :
    stepNF now supId ls b =
      { vis := { parts := ls.vis.parts.map (fun q => if q.reference == b.reference.getD ""
                   then apPart b now q else q),
                 avails := ls.vis.avails.map (fun a => if a.part_id == p.id && a.supplier_id == supId
                   then apAvail b now a else a),
                 nextPartId := ls.vis.nextPartId },
        pend := ls.pend, broken := false, countNew := ls.countNew,
        countUpd := ls.countUpd + 1, countErr := ls.countErr } := by
  rw [stepNF_found now supId ls b p hv hb hp]
  unfold stepAvail
  simp only []
  rw [ha]
  simp [hb]

/-- Combined per-item step: part found, availability row invisible (added
to the pending inserts). -/
theorem stepNF_found_avmiss (now supId : Nat) (ls : LoopSt) (b : RawItem) (p : Part)
    (hv : validItem b = true) (hb : ls.broken = false)
    (hp : ls.vis.parts.find? (fun q => q.reference == b.reference.getD "") = some p)
    (ha : ls.vis.avails.find? (fun a => a.part_id == p.id && a.supplier_id == supId) = none) :
    stepNF now supId ls b =
      { vis := { parts := ls.vis.parts.map (fun q => if q.reference == b.reference.getD ""
                   then apPart b now q else q),
                 avails := ls.vis.avails,
                 nextPartId := ls.vis.nextPartId },
        pend := ls.pend ++ [mkAvail p.id supId b now], broken := false,
        countNew := ls.countNew, countUpd := ls.countUpd + 1, countErr := ls.countErr } := by
  rw [stepNF_found now supId ls b p hv hb hp]
  unfold stepAvail
  simp only []
  rw [ha]
  simp [hb]

/-- Combined per-item step: part absent, successful flush, fresh
availability row pending. -/
theorem stepNF_new (now supId : Nat) (ls : LoopSt) (b : RawItem)
    (hv : validItem b = true) (hb : ls.broken = false)
    (hp : ls.vis.parts.find? (fun q => q.reference == b.reference.getD "") = none)
    (hf : flushOk ls.vis ls.pend (some (mkPart ls.vis.nextPartId b now)) = true)
    (ha : (ls.vis.avails ++ ls.pend).find?
      (fun a => a.part_id == ls.vis.nextPartId && a.supplier_id == supId) = none) :
    stepNF now supId ls b =
      { vis := { parts := ls.vis.parts ++ [mkPart ls.vis.nextPartId b now],
                 avails := ls.vis.avails ++ ls.pend,
                 nextPartId := ls.vis.nextPartId + 1 },
        pend := [mkAvail ls.vis.nextPartId supId b now], broken := false,
        countNew := ls.countNew + 1, countUpd := ls.countUpd, countErr := ls.countErr } := by
  rw [stepNF_new_ok now supId ls b hv hb hp hf]
  unfold stepAvail
  simp only []
  rw [ha]
  simp [hb]

/-- A session state from which the final commit can no longer succeed:
either a flush already failed (the session raises until rollback), or the
visible-plus-pending availability rows already violate the unique
`(part_id, supplier_id)` index, so the commit-time flush must fail. -/
def DoomedLoop (ls : LoopSt) : Prop :=
  ls.broken = true ∨ ¬ (keysOf (ls.vis.avails ++ ls.pend)).Nodup

/-- A healthy session state: not broken, unique references and ids among
visible parts, unique availability keys among visible-plus-pending rows,
and all ids below the autoincrement counter. -/
def CleanLoop (ls : LoopSt) : Prop :=
  ls.broken = false ∧
  (refsOf ls.vis.parts).Nodup ∧
  (ls.vis.parts.map (·.id)).Nodup ∧
  (∀ p ∈ ls.vis.parts, p.id < ls.vis.nextPartId) ∧
  (keysOf (ls.vis.avails ++ ls.pend)).Nodup ∧
  (∀ a ∈ ls.vis.avails ++ ls.pend, a.part_id < ls.vis.nextPartId)

theorem keysOf_append (l₁ l₂ : List Availability) :
    keysOf (l₁ ++ l₂) = keysOf l₁ ++ keysOf l₂ := List.map_append _ _ _

theorem find?_ref_map (parts : List Part) (f : Part → Part)
    (href : ∀ q, (f q).reference = q.reference) (r : String) :
    (parts.map f).find? (fun q => q.reference == r) =
      (parts.find? (fun q => q.reference == r)).map f := by
  rw [List.find?_map]
  rw [show ((fun q : Part => q.reference == r) ∘ f) = (fun q : Part => q.reference == r)
    from funext fun q => by simp [Function.comp, href q]]

theorem find?_key_none_of_bound (l : List Availability) (n supId : Nat)
    (h : ∀ a ∈ l, a.part_id < n) :
    l.find? (fun a => a.part_id == n && a.supplier_id == supId) = none := by
  rw [List.find?_eq_none]
  intro a ha
  simp only [Bool.and_eq_true, beq_iff_eq, not_and]
  intro h1
  exact absurd h1 (Nat.ne_of_lt (h a ha))

theorem bool_eq_false_of_not {x : Bool} (h : ¬ x = true) : x = false := by
  cases x
  · rfl
  · exact absurd rfl h

theorem stepNF_doomed (now supId : Nat) (ls : LoopSt) (b : RawItem)
    (h : DoomedLoop ls) : DoomedLoop (stepNF now supId ls b) := by
  by_cases hv : validItem b = true
  case neg =>
    rw [stepNF_invalid now supId ls b (bool_eq_false_of_not hv)]
    exact h
  case pos =>
    cases hbk : ls.broken
    case true =>
      rw [stepNF_broken now supId ls b hv hbk]
      left
      exact hbk
    case false =>
      have hdup : ¬ (keysOf (ls.vis.avails ++ ls.pend)).Nodup := by
        rcases h with h | h
        · rw [hbk] at h
          cases h
        · exact h
      cases hp : ls.vis.parts.find? (fun q => q.reference == b.reference.getD "") with
      | none =>
        have hf : flushOk ls.vis ls.pend (some (mkPart ls.vis.nextPartId b now)) = false := by
          unfold flushOk
          simp [hdup]
        rw [stepNF_new_bad now supId ls b hv hbk hp hf]
        left
        rfl
      | some p =>
        cases ha : ls.vis.avails.find?
            (fun a => a.part_id == p.id && a.supplier_id == supId) with
        | some a1 =>
          rw [stepNF_found_avfound now supId ls b p hv hbk hp a1 ha]
          right
          rw [keysOf_append,
            keysOf_map_preserve _ _ (fun a => by split <;> rfl), ← keysOf_append]
          exact hdup
        | none =>
          rw [stepNF_found_avmiss now supId ls b p hv hbk hp ha]
          right
          intro hnodup
          apply hdup
          rw [← List.append_assoc] at hnodup
          rw [keysOf_append] at hnodup
          exact ((List.nodup_append.mp hnodup).1 : (keysOf (ls.vis.avails ++ ls.pend)).Nodup)

theorem foldl_doomed (now supId : Nat) (L : List RawItem) :
    ∀ ls : LoopSt, DoomedLoop ls → DoomedLoop (L.foldl (stepNF now supId) ls) := by
  induction L with
  | nil => intro ls h; exact h
  | cons b L ih =>
    intro ls h
    rw [List.foldl_cons]
    exact ih _ (stepNF_doomed now supId ls b h)

theorem finishCommit_doomed (st : Store) (n : Nat) (ls : LoopSt)
    (h : DoomedLoop ls) : (finishCommit true st n ls).store = st ∧
      (finishCommit true st n ls).processed = 0 := by
  unfold finishCommit
  have hcond : (!ls.broken && true && flushOk ls.vis ls.pend none) = false := by
    rcases h with h | h
    · rw [h]
      rfl
    · have : flushOk ls.vis ls.pend none = false := by
        unfold flushOk
        simp [h]
      rw [this]
      simp
  rw [hcond]
  exact ⟨rfl, rfl⟩

/-- What processing a suffix `L` from session state `s` guarantees about
the final state `t` when no rollback-forcing event occurs: the state stays
clean, part lookups stay resolvable with stable ids, availability keys
persist, every final part row is the `selP`-fold of a starting row or of a
blank created row, every final availability row is the `selA`-fold of a
starting row or of a blank created row, and every valid item of `L` has
its part and availability rows present at the end. -/
def Run1Out (now supId : Nat) (L : List RawItem) (s t : LoopSt) : Prop :=
  CleanLoop t ∧
  (∀ (r : String) (p : Part), s.vis.parts.find? (fun q => q.reference == r) = some p →
    ∃ p', t.vis.parts.find? (fun q => q.reference == r) = some p' ∧ p'.id = p.id) ∧
  (∀ a ∈ s.vis.avails ++ s.pend,
    ∃ a' ∈ t.vis.avails ++ t.pend, availKey a' = availKey a) ∧
  (∀ p ∈ t.vis.parts, ∃ p0, p0.id = p.id ∧ p0.reference = p.reference ∧
    partFold now (selP p.reference L) p0 = p ∧
    (p0 ∈ s.vis.parts ∨ (p0 = blankPart p.id p.reference now ∧
      s.vis.parts.find? (fun q => q.reference == p.reference) = none))) ∧
  (∀ a ∈ t.vis.avails ++ t.pend,
    ∃ a0, a0.part_id = a.part_id ∧ a0.supplier_id = a.supplier_id ∧
    availFold now (selA t.vis.parts supId (availKey a) L) a0 = a ∧
    (a0 ∈ s.vis.avails ++ s.pend ∨ (a0 = blankAvail a.part_id a.supplier_id ∧
      ∀ a'' ∈ s.vis.avails ++ s.pend, availKey a'' ≠ availKey a))) ∧
  (∀ b ∈ L, validItem b = true →
    ∃ p', t.vis.parts.find? (fun q => q.reference == b.reference.getD "") = some p' ∧
      ∃ a' ∈ t.vis.avails ++ t.pend, availKey a' = (p'.id, supId))

theorem run1_out_refl (now supId : Nat) (s : LoopSt) (hs : CleanLoop s) :
    Run1Out now supId [] s s := by
  refine ⟨hs, ?_, ?_, ?_, ?_, ?_⟩
  · intro r p hp
    exact ⟨p, hp, rfl⟩
  · intro a ha
    exact ⟨a, ha, rfl⟩
  · intro p hp
    exact ⟨p, rfl, rfl, rfl, Or.inl hp⟩
  · intro a ha
    exact ⟨a, rfl, rfl, rfl, Or.inl ha⟩
  · intro b hb
    cases hb

theorem run1_compose_invalid (now supId : Nat) (b : RawItem) (L : List RawItem)
    (s t : LoopSt) (hv : validItem b = false)
    (h : Run1Out now supId L s t) : Run1Out now supId (b :: L) s t := by
  obtain ⟨hc, hstab, hkeys, hpc, hac, hpres⟩ := h
  refine ⟨hc, hstab, hkeys, ?_, ?_, ?_⟩
  · intro p hp
    obtain ⟨p0, h1, h2, h3, h4⟩ := hpc p hp
    exact ⟨p0, h1, h2, by rwa [selP_cons_invalid b L p.reference hv], h4⟩
  · intro a ha
    obtain ⟨a0, h1, h2, h3, h4⟩ := hac a ha
    exact ⟨a0, h1, h2,
      by rwa [selA_cons_invalid t.vis.parts supId (availKey a) b L hv], h4⟩
  · intro b' hb' hv'
    rcases List.mem_cons.mp hb' with rfl | hb'
    · rw [hv] at hv'
      cases hv'
    · exact hpres b' hb' hv'

theorem clean_avfound (now supId : Nat) (s : LoopSt) (b : RawItem) (p : Part)
    (hs : CleanLoop s) :
    CleanLoop
      { vis := { parts := s.vis.parts.map (fun q => if q.reference == b.reference.getD ""
                   then apPart b now q else q),
                 avails := s.vis.avails.map (fun a => if a.part_id == p.id && a.supplier_id == supId
                   then apAvail b now a else a),
                 nextPartId := s.vis.nextPartId },
        pend := s.pend, broken := false, countNew := s.countNew,
        countUpd := s.countUpd + 1, countErr := s.countErr } := by
  obtain ⟨_, hnr, hni, hbp, hnk, hba⟩ := hs
  refine ⟨rfl, ?_, ?_, ?_, ?_, ?_⟩
  · rwa [refsOf_map_preserve _ _ (fun q => by split <;> rfl)]
  · rwa [idsOf_map_preserve _ _ (fun q => by split <;> rfl)]
  · intro q hq
    obtain ⟨x, hx, rfl⟩ := List.mem_map.mp hq
    show (if (x.reference == b.reference.getD "") = true
      then apPart b now x else x).id < s.vis.nextPartId
    split <;> exact hbp x hx
  · rwa [keysOf_append, keysOf_map_preserve _ _ (fun a => by split <;> rfl),
      ← keysOf_append]
  · intro a ha
    rcases List.mem_append.mp ha with ha | ha
    · obtain ⟨x, hx, rfl⟩ := List.mem_map.mp ha
      show (if (x.part_id == p.id && x.supplier_id == supId) = true
        then apAvail b now x else x).part_id < s.vis.nextPartId
      split <;> exact hba x (List.mem_append_left _ hx)
    · exact hba a (List.mem_append_right _ ha)

theorem clean_avmiss (now supId : Nat) (s : LoopSt) (b : RawItem) (p : Part)
    (hs : CleanLoop s) (hpmem : p ∈ s.vis.parts)
    (hfresh : (p.id, supId) ∉ keysOf (s.vis.avails ++ s.pend)) :
    CleanLoop
      { vis := { parts := s.vis.parts.map (fun q => if q.reference == b.reference.getD ""
                   then apPart b now q else q),
                 avails := s.vis.avails,
                 nextPartId := s.vis.nextPartId },
        pend := s.pend ++ [mkAvail p.id supId b now], broken := false,
        countNew := s.countNew, countUpd := s.countUpd + 1, countErr := s.countErr } := by
  obtain ⟨_, hnr, hni, hbp, hnk, hba⟩ := hs
  refine ⟨rfl, ?_, ?_, ?_, ?_, ?_⟩
  · rwa [refsOf_map_preserve _ _ (fun q => by split <;> rfl)]
  · rwa [idsOf_map_preserve _ _ (fun q => by split <;> rfl)]
  · intro q hq
    obtain ⟨x, hx, rfl⟩ := List.mem_map.mp hq
    show (if (x.reference == b.reference.getD "") = true
      then apPart b now x else x).id < s.vis.nextPartId
    split <;> exact hbp x hx
  · rw [← List.append_assoc, keysOf_append]
    rw [List.nodup_append]
    refine ⟨hnk, List.nodup_singleton _, ?_⟩
    intro k hk hk2
    simp only [keysOf, availKey, List.map_cons, List.map_nil,
      List.mem_singleton] at hk2
    subst hk2
    exact hfresh hk
  · intro a ha
    rcases List.mem_append.mp ha with ha | ha
    · exact hba a (List.mem_append_left _ ha)
    · rcases List.mem_append.mp ha with ha | ha
      · exact hba a (List.mem_append_right _ ha)
      · rw [List.mem_singleton] at ha
        subst ha
        exact hbp p hpmem

theorem clean_create (now supId : Nat) (s : LoopSt) (b : RawItem)
    (hs : CleanLoop s)
    (hp : s.vis.parts.find? (fun q => q.reference == b.reference.getD "") = none) :
    CleanLoop
      { vis := { parts := s.vis.parts ++ [mkPart s.vis.nextPartId b now],
                 avails := s.vis.avails ++ s.pend,
                 nextPartId := s.vis.nextPartId + 1 },
        pend := [mkAvail s.vis.nextPartId supId b now], broken := false,
        countNew := s.countNew + 1, countUpd := s.countUpd, countErr := s.countErr } := by
  obtain ⟨_, hnr, hni, hbp, hnk, hba⟩ := hs
  have hrfree : b.reference.getD "" ∉ refsOf s.vis.parts := by
    intro hmem
    obtain ⟨q, hqmem, hqref⟩ := List.mem_map.mp hmem
    have := List.find?_eq_none.mp hp q hqmem
    simp [hqref] at this
  refine ⟨rfl, ?_, ?_, ?_, ?_, ?_⟩
  · unfold refsOf
    rw [List.map_append, List.nodup_append]
    refine ⟨hnr, List.nodup_singleton _, ?_⟩
    intro r hr hr2
    simp only [List.map_cons, List.map_nil, List.mem_singleton] at hr2
    subst hr2
    exact hrfree hr
  · rw [List.map_append, List.nodup_append]
    refine ⟨hni, List.nodup_singleton _, ?_⟩
    intro i hi hi2
    simp only [List.map_cons, List.map_nil, List.mem_singleton] at hi2
    subst hi2
    obtain ⟨q, hqmem, hqid⟩ := List.mem_map.mp hi
    have := hbp q hqmem
    rw [hqid] at this
    exact absurd rfl (Nat.ne_of_lt this)
  · intro q hq
    rcases List.mem_append.mp hq with hq | hq
    · exact Nat.lt_trans (hbp q hq) (Nat.lt_succ_self _)
    · rw [List.mem_singleton] at hq
      subst hq
      exact Nat.lt_succ_self _
  · rw [keysOf_append, List.nodup_append]
    refine ⟨hnk, List.nodup_singleton _, ?_⟩
    intro k hk hk2
    simp only [keysOf, availKey, List.map_cons, List.map_nil,
      List.mem_singleton] at hk2
    subst hk2
    obtain ⟨a, hamem, hakey⟩ := List.mem_map.mp hk
    have := hba a hamem
    have h1 : a.part_id = s.vis.nextPartId := congrArg Prod.fst hakey
    rw [h1] at this
    exact absurd rfl (Nat.ne_of_lt this)
  · intro a ha
    rcases List.mem_append.mp ha with ha | ha
    · exact Nat.lt_trans (hba a ha) (Nat.lt_succ_self _)
    · rw [List.mem_singleton] at ha
      subst ha
      exact Nat.lt_succ_self _

theorem availKey_pair (x : Availability) (pid supId : Nat) :
    availKey x = (pid, supId) ↔ (x.part_id == pid && x.supplier_id == supId) = true := by
  unfold availKey
  simp [Prod.ext_iff]

theorem run1_compose_avfound (now supId : Nat) (b : RawItem) (L : List RawItem)
    (s t : LoopSt) (p : Part) (a1 : Availability)
    (hv : validItem b = true)
    (hp : s.vis.parts.find? (fun q => q.reference == b.reference.getD "") = some p)
    (ha : s.vis.avails.find? (fun a => a.part_id == p.id && a.supplier_id == supId) = some a1)
    (hnk : (keysOf (s.vis.avails ++ s.pend)).Nodup)
    (h : Run1Out now supId L
      { vis := { parts := s.vis.parts.map (fun q => if q.reference == b.reference.getD ""
                   then apPart b now q else q),
                 avails := s.vis.avails.map (fun a => if a.part_id == p.id && a.supplier_id == supId
                   then apAvail b now a else a),
                 nextPartId := s.vis.nextPartId },
        pend := s.pend, broken := false, countNew := s.countNew,
        countUpd := s.countUpd + 1, countErr := s.countErr } t) :
    Run1Out now supId (b :: L) s t := by
  have hpmem : p ∈ s.vis.parts := List.mem_of_find?_eq_some hp
  have hpref : p.reference = b.reference.getD "" := by
    have := List.find?_some hp
    simpa using this
  have ha1mem : a1 ∈ s.vis.avails := List.mem_of_find?_eq_some ha
  have ha1key : availKey a1 = (p.id, supId) := by
    rw [availKey_pair]
    have h5 := List.find?_some ha
    exact h5
  obtain ⟨hc, hstab, hkeys, hpc, hac, hpres⟩ := h
  have hreff : ∀ q : Part, (if (q.reference == b.reference.getD "") = true
      then apPart b now q else q).reference = q.reference := fun q => by split <;> rfl
  have hidf : ∀ q : Part, (if (q.reference == b.reference.getD "") = true
      then apPart b now q else q).id = q.id := fun q => by split <;> rfl
  have hkeyg : ∀ a : Availability,
      availKey (if (a.part_id == p.id && a.supplier_id == supId) = true
        then apAvail b now a else a) = availKey a := fun a => by split <;> rfl
  have hstep_find : ∀ r : String,
      (s.vis.parts.map (fun q => if q.reference == b.reference.getD ""
        then apPart b now q else q)).find? (fun q => q.reference == r) =
      (s.vis.parts.find? (fun q => q.reference == r)).map
        (fun q => if q.reference == b.reference.getD "" then apPart b now q else q) :=
    fun r => find?_ref_map _ _ hreff r
  have hstab' : ∀ (r : String) (q : Part),
      s.vis.parts.find? (fun x => x.reference == r) = some q →
      ∃ p', t.vis.parts.find? (fun x => x.reference == r) = some p' ∧ p'.id = q.id := by
    intro r q hq
    have harg : (s.vis.parts.map (fun x => if x.reference == b.reference.getD ""
        then apPart b now x else x)).find? (fun x => x.reference == r) =
        some (if (q.reference == b.reference.getD "") = true then apPart b now q else q) := by
      rw [hstep_find, hq]
      rfl
    obtain ⟨p', hp', hid'⟩ := hstab r _ harg
    exact ⟨p', hp', by rw [hid', hidf]⟩
  have hres_t : resolveId t.vis.parts b = some p.id := by
    obtain ⟨p', hp', hid'⟩ := hstab' (b.reference.getD "") p hp
    unfold resolveId
    rw [hp']
    simp [hid']
  refine ⟨hc, hstab', ?_, ?_, ?_, ?_⟩
  · -- availability keys persist
    intro a hA
    rcases List.mem_append.mp hA with hA | hA
    · obtain ⟨a', ha'mem, ha'key⟩ := hkeys
        (if (a.part_id == p.id && a.supplier_id == supId) = true then apAvail b now a else a)
        (List.mem_append_left _ (List.mem_map_of_mem _ hA))
      exact ⟨a', ha'mem, by rw [ha'key, hkeyg]⟩
    · exact hkeys a (List.mem_append_right _ hA)
  · -- part rows
    intro q hq
    obtain ⟨p0', h1, h2, h3, h4⟩ := hpc q hq
    rcases h4 with h4 | ⟨h4blank, h4none⟩
    · obtain ⟨x, hx, hfx⟩ := List.mem_map.mp h4
      by_cases hxr : (x.reference == b.reference.getD "") = true
      · have hfx' : p0' = apPart b now x := by
          rw [← hfx]
          simp only [hxr, if_true]
        have hxref : x.reference = b.reference.getD "" := by simpa using hxr
        have hqref : x.reference = q.reference := by
          rw [← h2, hfx']
          rfl
        refine ⟨x, ?_, hqref, ?_, Or.inl hx⟩
        · rw [← h1, hfx']
          rfl
        · have hsel : selP q.reference (b :: L) = b :: selP q.reference L := by
            rw [← hqref, hxref]
            exact selP_cons_self b L hv
          rw [hsel, partFold_cons, ← hfx']
          exact h3
      · have hfx' : p0' = x := by
          rw [← hfx]
          show (if (x.reference == b.reference.getD "") = true
            then apPart b now x else x) = x
          rw [if_neg hxr]
        have hqref : x.reference = q.reference := by rw [← h2, hfx']
        have hbne : b.reference.getD "" ≠ q.reference := by
          intro hcontra
          apply hxr
          rw [hqref, ← hcontra]
          simp
        refine ⟨x, by rw [← h1, hfx'], hqref, ?_, Or.inl hx⟩
        rw [selP_cons_ne b L q.reference hbne, ← hfx']
        exact h3
    · have hnone : s.vis.parts.find? (fun x => x.reference == q.reference) = none := by
        have h5 := h4none
        rw [hstep_find] at h5
        exact Option.map_eq_none'.mp h5
      have hbne : b.reference.getD "" ≠ q.reference := by
        intro hcontra
        rw [← hcontra, hp] at hnone
        cases hnone
      refine ⟨p0', h1, h2, ?_, Or.inr ⟨h4blank, hnone⟩⟩
      rw [selP_cons_ne b L q.reference hbne]
      exact h3
  · -- availability rows
    intro a hA
    obtain ⟨a0', h1, h2, h3, h4⟩ := hac a hA
    have hkey_a0' : availKey a0' = availKey a := by
      unfold availKey
      rw [h1, h2]
    by_cases hk : availKey a = (p.id, supId)
    · have hsel : selA t.vis.parts supId (availKey a) (b :: L) =
          b :: selA t.vis.parts supId (availKey a) L := by
        refine selA_cons_hit _ _ _ _ _ hv ?_ ?_
        · rw [hres_t]
          exact congrArg some (congrArg Prod.fst hk).symm
        · exact (congrArg Prod.snd hk).symm
      rcases h4 with h4 | ⟨h4blank, h4absent⟩
      · rcases List.mem_append.mp h4 with h4 | h4
        · obtain ⟨x, hx, hgx⟩ := List.mem_map.mp h4
          have hkeyx : availKey x = (p.id, supId) := by
            rw [← hk, ← hkey_a0', ← hgx, hkeyg]
          have hxmatch : (x.part_id == p.id && x.supplier_id == supId) = true :=
            (availKey_pair x p.id supId).mp hkeyx
          have hgx' : a0' = apAvail b now x := by
            rw [← hgx]
            simp only [hxmatch, if_true]
          have hkx0 : availKey x = availKey a := by rw [hkeyx, hk]
          have hkx1 : x.part_id = a.part_id := congrArg Prod.fst hkx0
          have hkx2 : x.supplier_id = a.supplier_id := congrArg Prod.snd hkx0
          refine ⟨x, hkx1, hkx2, ?_, Or.inl (List.mem_append_left _ hx)⟩
          rw [hsel, availFold_cons, ← hgx']
          exact h3
        · exfalso
          have hdisj := (List.nodup_append.mp (by rwa [keysOf_append] at hnk)).2.2
          have hm1 : (p.id, supId) ∈ keysOf s.vis.avails := by
            have h5 : availKey a1 ∈ keysOf s.vis.avails :=
              List.mem_map_of_mem availKey ha1mem
            rwa [ha1key] at h5
          have hm2 : (p.id, supId) ∈ keysOf s.pend := by
            have h5 : availKey a0' ∈ keysOf s.pend :=
              List.mem_map_of_mem availKey h4
            rwa [hkey_a0', hk] at h5
          exact hdisj hm1 hm2
      · exfalso
        exact h4absent
          (if (a1.part_id == p.id && a1.supplier_id == supId) = true
            then apAvail b now a1 else a1)
          (List.mem_append_left _ (List.mem_map_of_mem _ ha1mem))
          (by rw [hkeyg, ha1key, hk])
    · have hsel : selA t.vis.parts supId (availKey a) (b :: L) =
          selA t.vis.parts supId (availKey a) L := by
        refine selA_cons_miss _ _ _ _ _ ?_
        by_cases h5 : a.part_id = p.id
        · right
          intro hcontra
          apply hk
          have hc2 : a.supplier_id = supId := hcontra.symm
          unfold availKey
          rw [h5, hc2]
        · left
          rw [hres_t]
          intro hcontra
          have := Option.some.inj hcontra
          exact h5 this.symm
      rcases h4 with h4 | ⟨h4blank, h4absent⟩
      · rcases List.mem_append.mp h4 with h4 | h4
        · obtain ⟨x, hx, hgx⟩ := List.mem_map.mp h4
          have hkeyx : availKey x = availKey a := by
            rw [← hkey_a0', ← hgx, hkeyg]
          have hxmatch : ¬ (x.part_id == p.id && x.supplier_id == supId) = true := by
            intro hcontra
            exact hk (by rw [← hkeyx]; exact (availKey_pair x p.id supId).mpr hcontra)
          have hgx' : a0' = x := by
            rw [← hgx]
            show (if (x.part_id == p.id && x.supplier_id == supId) = true
              then apAvail b now x else x) = x
            rw [if_neg hxmatch]
          refine ⟨x, by rw [← h1, hgx'], by rw [← h2, hgx'], ?_,
            Or.inl (List.mem_append_left _ hx)⟩
          rw [hsel, ← hgx']
          exact h3
        · refine ⟨a0', h1, h2, ?_, Or.inl (List.mem_append_right _ h4)⟩
          rw [hsel]
          exact h3
      · refine ⟨a0', h1, h2, ?_, Or.inr ⟨h4blank, ?_⟩⟩
        · rw [hsel]
          exact h3
        · intro a'' ha'' hkeq
          rcases List.mem_append.mp ha'' with ha'' | ha''
          · exact h4absent
              (if (a''.part_id == p.id && a''.supplier_id == supId) = true
                then apAvail b now a'' else a'')
              (List.mem_append_left _ (List.mem_map_of_mem _ ha''))
              (by rw [hkeyg]; exact hkeq)
          · exact h4absent a'' (List.mem_append_right _ ha'') hkeq
  · -- presence
    intro b' hb' hv'
    rcases List.mem_cons.mp hb' with rfl | hb'
    · obtain ⟨p', hp', hid'⟩ := hstab' (b'.reference.getD "") p hp
      refine ⟨p', hp', ?_⟩
      obtain ⟨a', ha'mem, ha'key⟩ := hkeys
        (if (a1.part_id == p.id && a1.supplier_id == supId) = true
          then apAvail b' now a1 else a1)
        (List.mem_append_left _ (List.mem_map_of_mem _ ha1mem))
      refine ⟨a', ha'mem, ?_⟩
      rw [ha'key, hkeyg, ha1key, hid']
    · exact hpres b' hb' hv'

theorem run1_compose_avmiss (now supId : Nat) (b : RawItem) (L : List RawItem)
    (s t : LoopSt) (p : Part)
    (hv : validItem b = true)
    (hp : s.vis.parts.find? (fun q => q.reference == b.reference.getD "") = some p)
    (hfresh : (p.id, supId) ∉ keysOf (s.vis.avails ++ s.pend))
    (h : Run1Out now supId L
      { vis := { parts := s.vis.parts.map (fun q => if q.reference == b.reference.getD ""
                   then apPart b now q else q),
                 avails := s.vis.avails,
                 nextPartId := s.vis.nextPartId },
        pend := s.pend ++ [mkAvail p.id supId b now], broken := false,
        countNew := s.countNew, countUpd := s.countUpd + 1, countErr := s.countErr } t) :
    Run1Out now supId (b :: L) s t := by
  obtain ⟨hc, hstab, hkeys, hpc, hac, hpres⟩ := h
  have hreff : ∀ q : Part, (if (q.reference == b.reference.getD "") = true
      then apPart b now q else q).reference = q.reference := fun q => by split <;> rfl
  have hidf : ∀ q : Part, (if (q.reference == b.reference.getD "") = true
      then apPart b now q else q).id = q.id := fun q => by split <;> rfl
  have hstep_find : ∀ r : String,
      (s.vis.parts.map (fun q => if q.reference == b.reference.getD ""
        then apPart b now q else q)).find? (fun q => q.reference == r) =
      (s.vis.parts.find? (fun q => q.reference == r)).map
        (fun q => if q.reference == b.reference.getD "" then apPart b now q else q) :=
    fun r => find?_ref_map _ _ hreff r
  have hstab' : ∀ (r : String) (q : Part),
      s.vis.parts.find? (fun x => x.reference == r) = some q →
      ∃ p', t.vis.parts.find? (fun x => x.reference == r) = some p' ∧ p'.id = q.id := by
    intro r q hq
    have harg : (s.vis.parts.map (fun x => if x.reference == b.reference.getD ""
        then apPart b now x else x)).find? (fun x => x.reference == r) =
        some (if (q.reference == b.reference.getD "") = true then apPart b now q else q) := by
      rw [hstep_find, hq]
      rfl
    obtain ⟨p', hp', hid'⟩ := hstab r _ harg
    exact ⟨p', hp', by rw [hid', hidf]⟩
  have hres_t : resolveId t.vis.parts b = some p.id := by
    obtain ⟨p', hp', hid'⟩ := hstab' (b.reference.getD "") p hp
    unfold resolveId
    rw [hp']
    simp [hid']
  refine ⟨hc, hstab', ?_, ?_, ?_, ?_⟩
  · -- availability keys persist
    intro a hA
    rcases List.mem_append.mp hA with hA | hA
    · exact hkeys a (List.mem_append_left _ hA)
    · exact hkeys a (List.mem_append_right _ (List.mem_append_left _ hA))
  · -- part rows
    intro q hq
    obtain ⟨p0', h1, h2, h3, h4⟩ := hpc q hq
    rcases h4 with h4 | ⟨h4blank, h4none⟩
    · obtain ⟨x, hx, hfx⟩ := List.mem_map.mp h4
      by_cases hxr : (x.reference == b.reference.getD "") = true
      · have hfx' : p0' = apPart b now x := by
          rw [← hfx]
          simp only [hxr, if_true]
        have hxref : x.reference = b.reference.getD "" := by simpa using hxr
        have hqref : x.reference = q.reference := by
          rw [← h2, hfx']
          rfl
        refine ⟨x, ?_, hqref, ?_, Or.inl hx⟩
        · rw [← h1, hfx']
          rfl
        · have hsel : selP q.reference (b :: L) = b :: selP q.reference L := by
            rw [← hqref, hxref]
            exact selP_cons_self b L hv
          rw [hsel, partFold_cons, ← hfx']
          exact h3
      · have hfx' : p0' = x := by
          rw [← hfx]
          show (if (x.reference == b.reference.getD "") = true
            then apPart b now x else x) = x
          rw [if_neg hxr]
        have hqref : x.reference = q.reference := by rw [← h2, hfx']
        have hbne : b.reference.getD "" ≠ q.reference := by
          intro hcontra
          apply hxr
          rw [hqref, ← hcontra]
          simp
        refine ⟨x, by rw [← h1, hfx'], hqref, ?_, Or.inl hx⟩
        rw [selP_cons_ne b L q.reference hbne, ← hfx']
        exact h3
    · have hnone : s.vis.parts.find? (fun x => x.reference == q.reference) = none := by
        have h5 := h4none
        rw [hstep_find] at h5
        exact Option.map_eq_none'.mp h5
      have hbne : b.reference.getD "" ≠ q.reference := by
        intro hcontra
        rw [← hcontra, hp] at hnone
        cases hnone
      refine ⟨p0', h1, h2, ?_, Or.inr ⟨h4blank, hnone⟩⟩
      rw [selP_cons_ne b L q.reference hbne]
      exact h3
  · -- availability rows
    intro a hA
    obtain ⟨a0', h1, h2, h3, h4⟩ := hac a hA
    have hkey_a0' : availKey a0' = availKey a := by
      unfold availKey
      rw [h1, h2]
    by_cases hk : availKey a = (p.id, supId)
    · have hsel : selA t.vis.parts supId (availKey a) (b :: L) =
          b :: selA t.vis.parts supId (availKey a) L := by
        refine selA_cons_hit _ _ _ _ _ hv ?_ ?_
        · rw [hres_t]
          exact congrArg some (congrArg Prod.fst hk).symm
        · exact (congrArg Prod.snd hk).symm
      rcases h4 with h4 | ⟨h4blank, h4absent⟩
      · rcases List.mem_append.mp h4 with h4 | h4
        · exfalso
          have hm : (p.id, supId) ∈ keysOf (s.vis.avails ++ s.pend) := by
            have h5 : availKey a0' ∈ keysOf (s.vis.avails ++ s.pend) :=
              List.mem_map_of_mem availKey (List.mem_append_left _ h4)
            rwa [hkey_a0', hk] at h5
          exact hfresh hm
        · rcases List.mem_append.mp h4 with h4 | h4
          · exfalso
            have hm : (p.id, supId) ∈ keysOf (s.vis.avails ++ s.pend) := by
              have h5 : availKey a0' ∈ keysOf (s.vis.avails ++ s.pend) :=
                List.mem_map_of_mem availKey (List.mem_append_right _ h4)
              rwa [hkey_a0', hk] at h5
            exact hfresh hm
          · rw [List.mem_singleton] at h4
            have hk1 : a.part_id = p.id := congrArg Prod.fst hk
            have hk2 : a.supplier_id = supId := congrArg Prod.snd hk
            refine ⟨blankAvail a.part_id a.supplier_id, rfl, rfl, ?_, Or.inr ⟨rfl, ?_⟩⟩
            · rw [hsel, availFold_cons, ← mkAvail_eq_ap_blank, hk1, hk2, ← h4]
              exact h3
            · intro a'' ha'' hkeq
              have hm : (p.id, supId) ∈ keysOf (s.vis.avails ++ s.pend) := by
                have h5 : availKey a'' ∈ keysOf (s.vis.avails ++ s.pend) :=
                  List.mem_map_of_mem availKey ha''
                rwa [hkeq, hk] at h5
              exact hfresh hm
      · exfalso
        exact h4absent (mkAvail p.id supId b now)
          (List.mem_append_right _ (List.mem_append_right _ (List.mem_singleton_self _)))
          hk.symm
    · have hsel : selA t.vis.parts supId (availKey a) (b :: L) =
          selA t.vis.parts supId (availKey a) L := by
        refine selA_cons_miss _ _ _ _ _ ?_
        by_cases h5 : a.part_id = p.id
        · right
          intro hcontra
          apply hk
          have hc2 : a.supplier_id = supId := hcontra.symm
          unfold availKey
          rw [h5, hc2]
        · left
          rw [hres_t]
          intro hcontra
          have := Option.some.inj hcontra
          exact h5 this.symm
      rcases h4 with h4 | ⟨h4blank, h4absent⟩
      · rcases List.mem_append.mp h4 with h4 | h4
        · refine ⟨a0', h1, h2, ?_, Or.inl (List.mem_append_left _ h4)⟩
          rw [hsel]
          exact h3
        · rcases List.mem_append.mp h4 with h4 | h4
          · refine ⟨a0', h1, h2, ?_, Or.inl (List.mem_append_right _ h4)⟩
            rw [hsel]
            exact h3
          · exfalso
            rw [List.mem_singleton] at h4
            apply hk
            rw [← hkey_a0', h4]
            rfl
      · refine ⟨a0', h1, h2, ?_, Or.inr ⟨h4blank, ?_⟩⟩
        · rw [hsel]
          exact h3
        · intro a'' ha'' hkeq
          rcases List.mem_append.mp ha'' with ha'' | ha''
          · exact h4absent a'' (List.mem_append_left _ ha'') hkeq
          · exact h4absent a''
              (List.mem_append_right _ (List.mem_append_left _ ha'')) hkeq
  · -- presence
    intro b' hb' hv'
    rcases List.mem_cons.mp hb' with rfl | hb'
    · obtain ⟨p', hp', hid'⟩ := hstab' (b'.reference.getD "") p hp
      refine ⟨p', hp', ?_⟩
      obtain ⟨a', ha'mem, ha'key⟩ := hkeys (mkAvail p.id supId b' now)
        (List.mem_append_right _ (List.mem_append_right _ (List.mem_singleton_self _)))
      refine ⟨a', ha'mem, ?_⟩
      rw [ha'key]
      show (p.id, supId) = (p'.id, supId)
      rw [hid']
    · exact hpres b' hb' hv'

theorem run1_compose_create (now supId : Nat) (b : RawItem) (L : List RawItem)
    (s t : LoopSt)
    (hv : validItem b = true)
    (hp : s.vis.parts.find? (fun q => q.reference == b.reference.getD "") = none)
    (hba : ∀ a ∈ s.vis.avails ++ s.pend, a.part_id < s.vis.nextPartId)
    (h : Run1Out now supId L
      { vis := { parts := s.vis.parts ++ [mkPart s.vis.nextPartId b now],
                 avails := s.vis.avails ++ s.pend,
                 nextPartId := s.vis.nextPartId + 1 },
        pend := [mkAvail s.vis.nextPartId supId b now], broken := false,
        countNew := s.countNew + 1, countUpd := s.countUpd, countErr := s.countErr } t) :
    Run1Out now supId (b :: L) s t := by
  obtain ⟨hc, hstab, hkeys, hpc, hac, hpres⟩ := h
  have hmkref : (mkPart s.vis.nextPartId b now).reference = b.reference.getD "" := rfl
  have hstab' : ∀ (r : String) (q : Part),
      s.vis.parts.find? (fun x => x.reference == r) = some q →
      ∃ p', t.vis.parts.find? (fun x => x.reference == r) = some p' ∧ p'.id = q.id := by
    intro r q hq
    have harg : (s.vis.parts ++ [mkPart s.vis.nextPartId b now]).find?
        (fun x => x.reference == r) = some q := by
      rw [List.find?_append, hq]
      rfl
    exact hstab r q harg
  have hfind' : (s.vis.parts ++ [mkPart s.vis.nextPartId b now]).find?
      (fun x => x.reference == b.reference.getD "") =
      some (mkPart s.vis.nextPartId b now) := by
    rw [List.find?_append, hp]
    simp [List.find?_cons, hmkref]
  have hres_t : resolveId t.vis.parts b = some s.vis.nextPartId := by
    obtain ⟨p', hp', hid'⟩ := hstab (b.reference.getD "") _ hfind'
    unfold resolveId
    rw [hp']
    exact congrArg some hid'
  refine ⟨hc, hstab', ?_, ?_, ?_, ?_⟩
  · -- availability keys persist
    intro a hA
    exact hkeys a (List.mem_append_left _ hA)
  · -- part rows
    intro q hq
    obtain ⟨p0', h1, h2, h3, h4⟩ := hpc q hq
    rcases h4 with h4 | ⟨h4blank, h4none⟩
    · rcases List.mem_append.mp h4 with h4 | h4
      · have hbne : b.reference.getD "" ≠ q.reference := by
          intro hcontra
          have h5 := List.find?_eq_none.mp hp p0' h4
          rw [← hcontra] at h2
          simp [h2] at h5
        refine ⟨p0', h1, h2, ?_, Or.inl h4⟩
        rw [selP_cons_ne b L q.reference hbne]
        exact h3
      · rw [List.mem_singleton] at h4
        have hqref : q.reference = b.reference.getD "" := by
          rw [← h2, h4]
          rfl
        have hqid : q.id = s.vis.nextPartId := by
          rw [← h1, h4]
          rfl
        refine ⟨blankPart q.id q.reference now, rfl, rfl, ?_, Or.inr ⟨rfl, ?_⟩⟩
        · have hsel : selP q.reference (b :: L) = b :: selP q.reference L := by
            rw [hqref]
            exact selP_cons_self b L hv
          have hblank : apPart b now (blankPart q.id q.reference now) = p0' := by
            rw [hqref, ← mkPart_eq_ap_blank, hqid, ← h4]
          rw [hsel, partFold_cons, hblank]
          exact h3
        · rw [hqref]
          exact hp
    · have hbne : b.reference.getD "" ≠ q.reference := by
        intro hcontra
        rw [← hcontra, hfind'] at h4none
        cases h4none
      have hnone : s.vis.parts.find? (fun x => x.reference == q.reference) = none := by
        cases hfs : s.vis.parts.find? (fun x => x.reference == q.reference) with
        | none => rfl
        | some z =>
          rw [List.find?_append, hfs] at h4none
          cases h4none
      refine ⟨p0', h1, h2, ?_, Or.inr ⟨h4blank, hnone⟩⟩
      rw [selP_cons_ne b L q.reference hbne]
      exact h3
  · -- availability rows
    intro a hA
    obtain ⟨a0', h1, h2, h3, h4⟩ := hac a hA
    have hkey_a0' : availKey a0' = availKey a := by
      unfold availKey
      rw [h1, h2]
    by_cases hk : availKey a = (s.vis.nextPartId, supId)
    · have hsel : selA t.vis.parts supId (availKey a) (b :: L) =
          b :: selA t.vis.parts supId (availKey a) L := by
        refine selA_cons_hit _ _ _ _ _ hv ?_ ?_
        · rw [hres_t]
          exact congrArg some (congrArg Prod.fst hk).symm
        · exact (congrArg Prod.snd hk).symm
      rcases h4 with h4 | ⟨h4blank, h4absent⟩
      · rcases List.mem_append.mp h4 with h4 | h4
        · exfalso
          have h5 := hba a0' h4
          have h6 : a0'.part_id = s.vis.nextPartId := by
            have := congrArg Prod.fst (hkey_a0'.trans hk)
            exact this
          rw [h6] at h5
          exact absurd rfl (Nat.ne_of_lt h5)
        · rw [List.mem_singleton] at h4
          have hk1 : a.part_id = s.vis.nextPartId := congrArg Prod.fst hk
          have hk2 : a.supplier_id = supId := congrArg Prod.snd hk
          refine ⟨blankAvail a.part_id a.supplier_id, rfl, rfl, ?_, Or.inr ⟨rfl, ?_⟩⟩
          · rw [hsel, availFold_cons, ← mkAvail_eq_ap_blank, hk1, hk2, ← h4]
            exact h3
          · intro a'' ha'' hkeq
            have h5 := hba a'' ha''
            have h6 : a''.part_id = s.vis.nextPartId := by
              have := congrArg Prod.fst (hkeq.trans hk)
              exact this
            rw [h6] at h5
            exact absurd rfl (Nat.ne_of_lt h5)
      · exfalso
        exact h4absent (mkAvail s.vis.nextPartId supId b now)
          (List.mem_append_right _ (List.mem_singleton_self _))
          hk.symm
    · have hsel : selA t.vis.parts supId (availKey a) (b :: L) =
          selA t.vis.parts supId (availKey a) L := by
        refine selA_cons_miss _ _ _ _ _ ?_
        by_cases h5 : a.part_id = s.vis.nextPartId
        · right
          intro hcontra
          apply hk
          have hc2 : a.supplier_id = supId := hcontra.symm
          unfold availKey
          rw [h5, hc2]
        · left
          rw [hres_t]
          intro hcontra
          have := Option.some.inj hcontra
          exact h5 this.symm
      rcases h4 with h4 | ⟨h4blank, h4absent⟩
      · rcases List.mem_append.mp h4 with h4 | h4
        · refine ⟨a0', h1, h2, ?_, Or.inl h4⟩
          rw [hsel]
          exact h3
        · exfalso
          rw [List.mem_singleton] at h4
          apply hk
          rw [← hkey_a0', h4]
          rfl
      · refine ⟨a0', h1, h2, ?_, Or.inr ⟨h4blank, ?_⟩⟩
        · rw [hsel]
          exact h3
        · intro a'' ha'' hkeq
          exact h4absent a'' (List.mem_append_left _ ha'') hkeq
  · -- presence
    intro b' hb' hv'
    rcases List.mem_cons.mp hb' with rfl | hb'
    · obtain ⟨p', hp', hid'⟩ := hstab (b'.reference.getD "") _ hfind'
      refine ⟨p', hp', ?_⟩
      obtain ⟨a', ha'mem, ha'key⟩ := hkeys (mkAvail s.vis.nextPartId supId b' now)
        (List.mem_append_right _ (List.mem_singleton_self _))
      refine ⟨a', ha'mem, ?_⟩
      rw [ha'key]
      show (s.vis.nextPartId, supId) = (p'.id, supId)
      rw [hid']
      rfl
    · exact hpres b' hb' hv'

/-- Characterisation of one pass of the per-item loop from a clean session
state: either the session is doomed to roll back, or the final state
satisfies the full `Run1Out` contract. -/
theorem run1_char (now supId : Nat) (L : List RawItem) :
    ∀ s : LoopSt, CleanLoop s →
      DoomedLoop (L.foldl (stepNF now supId) s) ∨
      Run1Out now supId L s (L.foldl (stepNF now supId) s) := by
  induction L with
  | nil =>
    intro s hs
    exact Or.inr (run1_out_refl now supId s hs)
  | cons b L ih =>
    intro s hs
    rw [List.foldl_cons]
    by_cases hv : validItem b = true
    case neg =>
      have hv' : validItem b = false := bool_eq_false_of_not hv
      rw [stepNF_invalid now supId s b hv']
      rcases ih s hs with hd | hr
      · exact Or.inl hd
      · exact Or.inr (run1_compose_invalid now supId b L s _ hv' hr)
    case pos =>
      obtain ⟨hbk, hnr, hni, hbp, hnk, hba⟩ := hs
      cases hp : s.vis.parts.find? (fun q => q.reference == b.reference.getD "") with
      | some p =>
        cases ha : s.vis.avails.find?
            (fun a => a.part_id == p.id && a.supplier_id == supId) with
        | some a1 =>
          rw [stepNF_found_avfound now supId s b p hv hbk hp a1 ha]
          have hs' := clean_avfound now supId s b p ⟨hbk, hnr, hni, hbp, hnk, hba⟩
          rcases ih _ hs' with hd | hr
          · exact Or.inl hd
          · exact Or.inr (run1_compose_avfound now supId b L s _ p a1 hv hp ha hnk hr)
        | none =>
          rw [stepNF_found_avmiss now supId s b p hv hbk hp ha]
          by_cases hfresh : (p.id, supId) ∈ keysOf (s.vis.avails ++ s.pend)
          · left
            apply foldl_doomed
            right
            intro hnodup
            rw [← List.append_assoc, keysOf_append] at hnodup
            have hdisj := (List.nodup_append.mp hnodup).2.2
            have hm2 : (p.id, supId) ∈ keysOf [mkAvail p.id supId b now] :=
              List.mem_singleton_self _
            exact hdisj hfresh hm2
          · have hs' := clean_avmiss now supId s b p ⟨hbk, hnr, hni, hbp, hnk, hba⟩
              (List.mem_of_find?_eq_some hp) hfresh
            rcases ih _ hs' with hd | hr
            · exact Or.inl hd
            · exact Or.inr (run1_compose_avmiss now supId b L s _ p hv hp hfresh hr)
      | none =>
        have hrfree : b.reference.getD "" ∉ refsOf s.vis.parts := by
          intro hmem
          obtain ⟨q, hqmem, hqref⟩ := List.mem_map.mp hmem
          have h5 := List.find?_eq_none.mp hp q hqmem
          simp [hqref] at h5
        have hf : flushOk s.vis s.pend (some (mkPart s.vis.nextPartId b now)) = true := by
          unfold flushOk
          simp only [Bool.and_eq_true, decide_eq_true_eq]
          exact ⟨hrfree, hnk⟩
        have hafind : (s.vis.avails ++ s.pend).find?
            (fun a => a.part_id == s.vis.nextPartId && a.supplier_id == supId) = none :=
          find?_key_none_of_bound _ _ _ hba
        rw [stepNF_new now supId s b hv hbk hp hf hafind]
        have hs' := clean_create now supId s b ⟨hbk, hnr, hni, hbp, hnk, hba⟩ hp
        rcases ih _ hs' with hd | hr
        · exact Or.inl hd
        · exact Or.inr (run1_compose_create now supId b L s _ hv hp hba hr)

theorem finishCommit_clean (st : Store) (n : Nat) (ls : LoopSt)
    (hb : ls.broken = false) (hnod : (keysOf (ls.vis.avails ++ ls.pend)).Nodup) :
    (finishCommit true st n ls).store =
      { ls.vis with
        avails := ls.vis.avails ++ ls.pend } := by
  have hcommit : (!ls.broken && true && flushOk ls.vis ls.pend none) = true := by
    simp [hb, flushOk, hnod]
  unfold finishCommit
  rw [hcommit, if_pos rfl]

theorem wf_clean_commit (ls : LoopSt) (hct : CleanLoop ls) :
    WFStore
      { ls.vis with
        avails := ls.vis.avails ++ ls.pend } :=
  ⟨hct.2.1, hct.2.2.1, hct.2.2.2.1, hct.2.2.2.2.1, hct.2.2.2.2.2⟩

theorem finishCommit_fixpoint (st0 v : Store) (n cU' : Nat)
    (hnod : (keysOf v.avails).Nodup) :
    (finishCommit true st0 n ⟨v, [], false, 0, cU', 0⟩).store = v := by
  have hnod2 : (keysOf (v.avails ++ ([] : List Availability))).Nodup := by
    rw [List.append_nil]
    exact hnod
  rw [finishCommit_clean st0 n ⟨v, [], false, 0, cU', 0⟩ rfl hnod2]
  refine Store.ext rfl ?_ rfl
  exact List.append_nil _

/-- Replaying the same batch on the committed store of a clean first run
reproduces that store exactly: every item turns into pure in-place updates
that are absorbed by idempotence of the per-field assignments. -/
theorem run2_of_run1 (now supId : Nat) (B : List RawItem) (s t : LoopSt)
    (h : Run1Out now supId B s t) :
    ∃ cU', B.foldl (stepNF now supId)
        (initLoop { t.vis with
          avails := t.vis.avails ++ t.pend }) =
      ⟨{ t.vis with
         avails := t.vis.avails ++ t.pend }, [], false, 0, cU', 0⟩ := by
  obtain ⟨hct, hstab, hkeys, hpc, hac, hpres⟩ := h
  refine run2_fixpoint now supId
    { t.vis with
      avails := t.vis.avails ++ t.pend } B
    { t.vis with
      avails := t.vis.avails ++ t.pend } 0 0 0 ?_ ?_ rfl ?_
  · refine List.forall₂_same.mpr ?_
    intro p hpmem
    refine ⟨rfl, rfl, ?_⟩
    obtain ⟨p0, h1, h2, h3, _⟩ := hpc p hpmem
    have h5 := partFold_replay now (selP p.reference B) p0
    rw [h3] at h5
    exact h5
  · refine List.forall₂_same.mpr ?_
    intro a hamem
    refine ⟨rfl, ?_⟩
    obtain ⟨a0, h1, h2, h3, _⟩ := hac a hamem
    have h5 := availFold_replay now (selA t.vis.parts supId (availKey a) B) a0
    rw [h3] at h5
    exact h5
  · intro b hb hv
    obtain ⟨p', hp', a', ha'mem, ha'key⟩ := hpres b hb hv
    constructor
    · refine ⟨p', List.mem_of_find?_eq_some hp', ?_⟩
      have h5 := List.find?_some hp'
      simpa using h5
    · intro p hp2
      have hp2' : t.vis.parts.find?
          (fun q => q.reference == b.reference.getD "") = some p := hp2
      have hpp : p = p' := Option.some.inj (hp2'.symm.trans hp')
      subst hpp
      exact ⟨a', ha'mem, ha'key⟩

/-- C5: with no injected per-item or commit failures, ingest is idempotent
on a well-formed store: running `process_results` a second time with the
identical batch and supplier leaves the store produced by the first run
unchanged, and the store produced by the first run satisfies the unique
constraints — no duplicate Part rows for the same reference and no
duplicate Availability rows for the same `(part_id, supplier_id)` pair. -/
theorem C5_ingest_idempotent (now supId : Nat) (B : List RawItem) (st : Store)
    (hwf : WFStore st) :
    (process_results now (fun _ => false) true B supId
        (process_results now (fun _ => false) true B supId st).store).store =
      (process_results now (fun _ => false) true B supId st).store ∧
    WFStore (process_results now (fun _ => false) true B supId st).store := by
  by_cases hB : B.isEmpty = true
  · have e1 : ∀ s : Store, process_results now (fun _ => false) true B supId s =
        ⟨false, 0, s⟩ := by
      intro s
      rw [process_results_eq_NF, if_pos hB]
    constructor
    · rw [e1 st]
      show (process_results now (fun _ => false) true B supId st).store = st
      rw [e1 st]
    · rw [e1 st]
      exact hwf
  · have hB' : B.isEmpty = false := bool_eq_false_of_not hB
    have e1 : ∀ s : Store, process_results now (fun _ => false) true B supId s =
        finishCommit true s B.length (B.foldl (stepNF now supId) (initLoop s)) := by
      intro s
      rw [process_results_eq_NF, hB', if_neg Bool.false_ne_true]
    have hclean0 : CleanLoop (initLoop st) := by
      obtain ⟨h1, h2, h3, h4, h5⟩ := hwf
      refine ⟨rfl, h1, h2, h3, ?_, ?_⟩
      · show (keysOf (st.avails ++ [])).Nodup
        rw [List.append_nil]
        exact h4
      · show ∀ a ∈ st.avails ++ [], a.part_id < st.nextPartId
        rw [List.append_nil]
        exact h5
    rcases run1_char now supId B (initLoop st) hclean0 with hd | hr
    · have hstore : (finishCommit true st B.length
          (B.foldl (stepNF now supId) (initLoop st))).store = st :=
        (finishCommit_doomed st B.length _ hd).1
      constructor
      · rw [e1 st, hstore, e1 st, hstore]
      · rw [e1 st, hstore]
        exact hwf
    · have hwfv : WFStore
          { (B.foldl (stepNF now supId) (initLoop st)).vis with
            avails := (B.foldl (stepNF now supId) (initLoop st)).vis.avails ++
              (B.foldl (stepNF now supId) (initLoop st)).pend } :=
        wf_clean_commit _ hr.1
      have estore1 : (finishCommit true st B.length
          (B.foldl (stepNF now supId) (initLoop st))).store =
          { (B.foldl (stepNF now supId) (initLoop st)).vis with
            avails := (B.foldl (stepNF now supId) (initLoop st)).vis.avails ++
              (B.foldl (stepNF now supId) (initLoop st)).pend } :=
        finishCommit_clean st B.length _ hr.1.1 hr.1.2.2.2.2.1
      obtain ⟨cU', hrun2⟩ := run2_of_run1 now supId B (initLoop st) _ hr
      constructor
      · rw [e1 st, estore1, e1, hrun2]
        exact finishCommit_fixpoint _ _ B.length cU' hwfv.2.2.2.1
      · rw [e1 st, estore1]
        exact hwfv

theorem C5_ingest_idempotent_witness :
    WFStore emptyStore ∧
    ((process_results 7 (fun _ => false) true [itemA, itemB] 1
        (process_results 7 (fun _ => false) true [itemA, itemB] 1 emptyStore).store).store =
      (process_results 7 (fun _ => false) true [itemA, itemB] 1 emptyStore).store ∧
     WFStore (process_results 7 (fun _ => false) true [itemA, itemB] 1 emptyStore).store) :=
  ⟨by unfold WFStore; decide, C5_ingest_idempotent 7 1 [itemA, itemB] emptyStore
    (by unfold WFStore; decide)⟩

end SpareParts
